import Mathlib

/-!
Shallow embedding of the budget aggregation core of the Budsjett repository
(src/server/db.js and the GET /api/dashboard handler of src/server/index.js).

Modelling conventions, used throughout:
* JavaScript numbers are modelled as ideal integers (Int).  The repository only
  adds, subtracts, negates and compares amounts, so no float-specific behaviour
  is in scope.  "Number(x) || 0" on an already-numeric value is the identity in
  this model; a possibly-missing or non-numeric value is modelled by JsVal.
* ISO date/time strings that the code only ever feeds through "new Date(...)"
  are modelled by their epoch-millisecond parse (Int).  An absent or empty
  (falsy) date string is modelled by Option.none.  Transaction.occurredOn is
  kept as a String because the code slices it textually.
* JavaScript objects used as insertion-ordered maps (monthlyMap, tagTotals,
  the level/category totals maps, the owner Maps) are modelled as association
  lists with an upsert that updates in place or appends, exactly mirroring the
  source folds.
* Array.prototype.sort is a stable sort and every comparator used by the code
  is a total preorder, so the sorted result is uniquely determined; we model it
  with List.insertionSort, which is stable for the same preorder.
  String.prototype.localeCompare agrees with the code-point order on the
  "YYYY-MM" period strings being compared.
* metadata fields (free-form JSON blobs that the aggregation never reads) are
  omitted from the record models.
-/

/-- A JavaScript numeric-ish value: absent (undefined/null), present but
parsing to NaN, or an actual (finite) number. -/
inductive JsVal where
  | missing
  | nan
  | num (n : Int)
deriving DecidableEq, Repr

/-- The ?? operator: first operand unless it is null/undefined. -/
def jsCoalesce (a b : JsVal) : JsVal :=
  match a with
  | .missing => b
  | x => x

/-- Number(x) with a finiteness check: the value when it is an actual number. -/
def JsVal.toNum? : JsVal → Option Int
  | .num n => some n
  | _ => none

/-- The || operator on strings ('' is falsy). -/
def jsOr (a b : String) : String := if a = "" then b else a

/-- String.prototype.trim, modelled over the character list (kernel-reducible,
unlike the library trim). -/
def jsTrim (s : String) : String :=
  String.mk (((s.data.dropWhile Char.isWhitespace).reverse.dropWhile
    Char.isWhitespace).reverse)

/-- Array.from(new Set(xs)): deduplication keeping first occurrences. -/
def setDedupAux {α : Type} [DecidableEq α] (seen : List α) : List α → List α
  | [] => []
  | a :: rest => if a ∈ seen then setDedupAux seen rest else a :: setDedupAux (a :: seen) rest

/-- Array.from(new Set(xs)) (with the empty set of already-seen elements). -/
def setDedup {α : Type} [DecidableEq α] (l : List α) : List α := setDedupAux [] l

/-- xs.reduce((sum, x) => sum + f(x), 0). -/
def sumBy {α : Type} (f : α → Int) (l : List α) : Int := l.foldl (fun s x => s + f x) 0

/-- Math.ceil(a / b) for a positive divisor b, on ideal integers. -/
def jsCeilDiv (a b : Int) : Int := -((-a).fdiv b)

/-- Replace the first element satisfying the predicate (the
findIndex-then-assign idiom of db.js). -/
def replaceFirst {α : Type} (l : List α) (pred : α → Bool) (x : α) : List α :=
  match l with
  | [] => []
  | a :: rest => if pred a then x :: rest else a :: replaceFirst rest pred x

/-- Upsert into an insertion-ordered map, adding v to the existing value
(the "if (!m[k]) m[k] = 0; m[k] += v" idiom). -/
def upsertAdd (acc : List (String × Int)) (k : String) (v : Int) : List (String × Int) :=
  if acc.any (fun e => e.1 = k) then
    acc.map (fun e => if e.1 = k then (e.1, e.2 + v) else e)
  else acc ++ [(k, v)]

/-- Upsert into an insertion-ordered map, replacing the value (Map.prototype.set). -/
def upsertSet (acc : List (String × Int)) (k : String) (v : Int) : List (String × Int) :=
  if acc.any (fun e => e.1 = k) then
    acc.map (fun e => if e.1 = k then (e.1, v) else e)
  else acc ++ [(k, v)]

/-- Map.prototype.get as produced by the reduce-with-set folds: the value of
the last profile written for the key, if any. -/
def mapGet (pairs : List (String × Int)) (k : String) : Option Int :=
  ((pairs.filter (fun e => e.1 = k)).getLast?).map (·.2)

/-! ## Data model (canonical record shapes of db.js) -/

structure PriceEntry where
  amount : Int
  changedAt : Int
deriving DecidableEq, Repr

structure FixedExpense where
  id : Int
  name : String
  amountPerMonth : Int
  category : String
  owners : List String
  level : String
  startDate : String
  bindingEndDate : Option Int
  noticePeriodMonths : Option Int
  note : String
  createdAt : Int
  updatedAt : Int
  priceHistory : List PriceEntry
deriving DecidableEq, Repr

structure Transaction where
  id : Int
  title : String
  amount : Int
  type : String
  categoryId : Option Int
  pageId : Option Int
  tags : List String
  occurredOn : String
  notes : String
deriving DecidableEq, Repr

structure Category where
  id : Int
  name : String
  type : String
  color : String
  description : String
deriving DecidableEq, Repr

structure Page where
  id : Int
  name : String
  description : String
  color : String
deriving DecidableEq, Repr

/-- An owner profile as the dashboard reads it.  monthlyNetIncome and
sharedContribution model "Number(profile.field)" results: none when the field
is absent or not finite. -/
structure OwnerProfile where
  name : String
  monthlyNetIncome : Option Int
  sharedContribution : Option Int
deriving DecidableEq, Repr

structure Settings where
  monthlyNetIncome : Int
  ownerProfiles : List OwnerProfile
  defaultFixedExpensesOwner : String
  defaultFixedExpensesOwners : List String
  bankModeEnabled : Bool
  lockEnabled : Bool
  lockSalt : String
  lockHash : String
deriving DecidableEq, Repr

structure Counters where
  categories : Int
  pages : Int
  transactions : Int
  fixedExpenses : Int
deriving DecidableEq, Repr

structure StoreState where
  categories : List Category
  pages : List Page
  transactions : List Transaction
  fixedExpenses : List FixedExpense
  settings : Settings
  counters : Counters
deriving DecidableEq, Repr

/-! ## Import shapes and normalization (db.js) -/

/-- A raw price-history entry as accepted by normalizeFixedExpense, with all
alias spellings.  The changedAt/date/timestamp fields model the || chain over
date strings ('' and absence are both none); a kept value is the parse of a
non-empty date string. -/
structure RawPriceEntry where
  amount : JsVal
  price : JsVal
  «beløp» : JsVal
  value : JsVal
  changedAt : Option Int
  date : Option Int
  timestamp : Option Int
deriving DecidableEq, Repr

/-- An owners field as accepted by normalizeFixedExpense: absent/other, a
comma-separated string, or an array of strings. -/
inductive RawOwners where
  | missing
  | str (s : String)
  | arr (l : List String)
deriving DecidableEq, Repr

/-- The || chain over owners fields (an empty array is truthy, an empty string
is falsy). -/
def ownersOr (a b : RawOwners) : RawOwners :=
  match a with
  | .missing => b
  | .str s => if s = "" then b else .str s
  | .arr l => .arr l

/-- The toOwners helper inside normalizeFixedExpense. -/
def toOwners : RawOwners → List String
  | .arr l => (l.filter (fun o => jsTrim o ≠ "")).map (jsTrim ·)
  | .str s => ((s.splitOn ",").map (jsTrim ·)).filter (fun o => o ≠ "")
  | .missing => []

/-- A raw fixed-expense record as accepted by normalizeFixedExpense /
replaceAll, with all alias spellings.  String fields use "" for an absent
(falsy) value; date fields are modelled by their parse as above. -/
structure RawFixedExpense where
  id : Option Int
  name : String
  navn : String
  amountPerMonth : JsVal
  «beløp_per_mnd» : JsVal
  amount_per_mnd : JsVal
  amount : JsVal
  category : String
  kategori : String
  owners : RawOwners
  eier : RawOwners
  eiere : RawOwners
  level : String
  «nivå» : String
  startDate : String
  startdato : String
  bindingEndDate : Option Int
  «binding_utløper» : Option Int
  sluttdato : Option Int
  noticePeriodMonths : JsVal
  «oppsigelsestid_mnd» : JsVal
  note : String
  notat : String
  createdAt : Option Int
  updatedAt : Option Int
  priceHistory : Option (List RawPriceEntry)
deriving DecidableEq, Repr

/-- The entry map+filter inside normalizeFixedExpense: resolve the amount
aliases with ?? and Number, the timestamp aliases with ||; drop the entry
unless the amount is finite and the timestamp truthy. -/
def parseRawEntry (en : RawPriceEntry) : Option PriceEntry :=
  match (jsCoalesce en.amount (jsCoalesce en.price (jsCoalesce en.«beløp» en.value))).toNum?,
      (en.changedAt <|> en.date <|> en.timestamp) with
  | some a, some t => some ⟨a, t⟩
  | _, _ => none

/-- Store.normalizeFixedExpense(raw, fallbackId), with "now" passed explicitly
in place of new Date().toISOString(). -/
def normalizeFixedExpense (raw : RawFixedExpense) (fallbackId : Int) (now : Int) : FixedExpense :=
  let amount := (jsCoalesce raw.amountPerMonth
    (jsCoalesce raw.«beløp_per_mnd» (jsCoalesce raw.amount_per_mnd raw.amount))).toNum?.getD 0
  let priceHistory0 : List PriceEntry := match raw.priceHistory with
    | some entries =>
        (entries.filterMap parseRawEntry).insertionSort
          (fun a b : PriceEntry => a.changedAt ≤ b.changedAt)
    | none => []
  let lastChanged := (raw.updatedAt <|> raw.createdAt).getD now
  let priceHistory := match priceHistory0.getLast? with
    | none => [⟨amount, lastChanged⟩]
    | some latest =>
        if latest.amount ≠ amount then priceHistory0 ++ [⟨amount, lastChanged⟩] else priceHistory0
  { id := raw.id.getD fallbackId
    name := jsOr raw.name (jsOr raw.navn "Uten navn")
    amountPerMonth := amount
    category := jsOr raw.category (jsOr raw.kategori "Annet")
    owners := toOwners (ownersOr raw.owners (ownersOr raw.eier raw.eiere))
    level := jsOr raw.level (jsOr raw.«nivå» "Må-ha")
    startDate := jsOr raw.startDate (jsOr raw.startdato "")
    bindingEndDate := raw.bindingEndDate <|> raw.«binding_utløper» <|> raw.sluttdato
    noticePeriodMonths :=
      match jsCoalesce raw.noticePeriodMonths raw.«oppsigelsestid_mnd» with
      | .missing => none
      | .nan => some 0
      | .num n => some n
    note := jsOr raw.note (jsOr raw.notat "")
    createdAt := raw.createdAt.getD now
    updatedAt := raw.updatedAt.getD now
    priceHistory := priceHistory }

/-- The income a profile contributes in normalizeOwnerProfiles: the value
when finite and non-negative, else 0. -/
def profileIncomeOf (p : OwnerProfile) : Int :=
  match p.monthlyNetIncome with
  | some v => if 0 ≤ v then v else 0
  | none => 0

/-- One step of the normalizeOwnerProfiles Map fold: skip blank trimmed
names, Map.set the income under the trimmed name. -/
def profileStep (acc : List (String × Int)) (p : OwnerProfile) : List (String × Int) :=
  if jsTrim p.name = "" then acc
  else upsertSet acc (jsTrim p.name) (profileIncomeOf p)

/-- Store.normalizeOwnerProfiles: a Map keyed by the trimmed name (set
overwrites the value, insertion order is kept), values clamped to 0 unless a
finite non-negative number; the produced records carry only name and
monthlyNetIncome (sharedContribution is not reproduced). -/
def normalizeOwnerProfiles (raw : List OwnerProfile) : List OwnerProfile :=
  (raw.foldl profileStep []).map (fun kv => ⟨kv.1, some kv.2, none⟩)

/-- Store.normalizeDefaultOwnerList: trim, drop blanks, dedup keeping first
occurrences. -/
def normalizeDefaultOwnerList (value : List String) : List String :=
  setDedup ((value.map (jsTrim ·)).filter (fun s => s ≠ ""))

/-! ## Store mutations (db.js) -/

structure AddCategoryPayload where
  id : Option Int
  name : String
  type : String
  color : String
  description : String
deriving DecidableEq, Repr

/-- Store.addCategory. -/
def addCategory (st : StoreState) (p : AddCategoryPayload) : StoreState × Category :=
  let withId : Counters × Int :=
    match p.id with
    | some i => (st.counters, i)
    | none => ({ st.counters with categories := st.counters.categories + 1 },
               st.counters.categories + 1)
  let category : Category :=
    { id := withId.2, name := p.name, type := jsOr p.type "expense",
      color := jsOr p.color "#4f46e5", description := jsOr p.description "" }
  let categories :=
    if st.categories.any (fun c => c.id == category.id) then
      replaceFirst st.categories (fun c => c.id == category.id) category
    else st.categories ++ [category]
  ({ st with categories := categories, counters := withId.1 }, category)

structure CategoryUpdatePayload where
  name : Option String
  type : Option String
  color : Option String
  description : Option String
deriving DecidableEq, Repr

/-- The merged category of updateCategory: spread of the payload over the
current record, then the name trimmed (the name is always a string in the
typed model). -/
def mergeCategory (c : Category) (p : CategoryUpdatePayload) : Category :=
  { c with
    name := jsTrim (p.name.getD c.name)
    type := p.type.getD c.type
    color := p.color.getD c.color
    description := p.description.getD c.description }

/-- Replace the first category whose id matches, returning the old and merged
records (the findIndex-and-assign part of updateCategory). -/
def updateCategoryGo (id : Int) (p : CategoryUpdatePayload) :
    List Category → List Category × Option (Category × Category)
  | [] => ([], none)
  | c :: rest =>
    if c.id == id then (mergeCategory c p :: rest, some (c, mergeCategory c p))
    else
      let r := updateCategoryGo id p rest
      (c :: r.1, r.2)

/-- Store.updateCategory(id, payload): merge the payload, and when the payload
carries a truthy name with a truthy trim that differs (as an untrimmed string)
from the current name, rewrite the category of every fixed expense whose
effective category ("category || 'Annet'") equals the old name. -/
def updateCategory (st : StoreState) (id : Int) (p : CategoryUpdatePayload) (now : Int) :
    StoreState × Option Category :=
  match updateCategoryGo id p st.categories with
  | (_, none) => (st, none)
  | (cats, some cur) =>
    let current := cur.1
    let updatedCategory := cur.2
    let cascade :=
      match p.name with
      | some n => n ≠ "" && jsTrim n ≠ "" && n != current.name
      | none => false
    let fixedExpenses :=
      if cascade then
        st.fixedExpenses.map (fun e =>
          if jsOr e.category "Annet" == current.name then
            { e with category := updatedCategory.name, updatedAt := now }
          else e)
      else st.fixedExpenses
    ({ st with categories := cats, fixedExpenses := fixedExpenses }, some updatedCategory)

structure AddFixedPayload where
  id : Option Int
  name : String
  amountPerMonth : JsVal
  category : String
  owners : Option (List String)
  level : String
  startDate : String
  bindingEndDate : Option Int
  noticePeriodMonths : Option Int
  note : String
  createdAt : Option Int
  updatedAt : Option Int
  priceHistory : Option (List PriceEntry)
deriving DecidableEq, Repr

/-- Store.addFixedExpense(payload), with "now" explicit. -/
def addFixedExpense (st : StoreState) (p : AddFixedPayload) (now : Int) :
    StoreState × FixedExpense :=
  let withId : Counters × Int :=
    match p.id with
    | some i => (st.counters, i)
    | none => ({ st.counters with fixedExpenses := st.counters.fixedExpenses + 1 },
               st.counters.fixedExpenses + 1)
  let amount := p.amountPerMonth.toNum?.getD 0
  let expense : FixedExpense :=
    { id := withId.2
      name := p.name
      amountPerMonth := amount
      category := jsOr p.category "Annet"
      owners :=
        match p.owners with
        | some l => (l.map (jsTrim ·)).filter (fun o => o ≠ "")
        | none => []
      level := jsOr p.level "Må-ha"
      startDate := jsOr p.startDate ""
      bindingEndDate := p.bindingEndDate
      noticePeriodMonths := p.noticePeriodMonths
      note := jsOr p.note ""
      createdAt := p.createdAt.getD now
      updatedAt := p.updatedAt.getD now
      priceHistory :=
        match p.priceHistory with
        | some l => if l ≠ [] then l else [⟨amount, now⟩]
        | none => [⟨amount, now⟩] }
  ({ st with fixedExpenses := st.fixedExpenses ++ [expense], counters := withId.1 }, expense)

/-- The update payload of PUT /api/faste-utgifter/:id as the route builds
it.  The generic object spread in the source could also carry keys like id or
createdAt; they are outside the documented API shape and none of the claims
depend on them, so the model restricts the payload to the handled fields
(payload priceHistory is always overridden by the computed one). -/
structure UpdateFixedPayload where
  name : Option String
  amountPerMonth : Option JsVal
  category : Option String
  owners : Option (Option (List String))
  level : Option String
  startDate : Option String
  bindingEndDate : Option (Option Int)
  noticePeriodMonths : Option (Option Int)
  note : Option String
  resetPriceHistory : Bool
deriving DecidableEq, Repr

/-- The updated record built by Store.updateFixedExpense: spread of the
payload over the current record, with owners, amountPerMonth,
noticePeriodMonths, updatedAt and priceHistory recomputed last (the computed
priceHistory always wins over any payload field). -/
def applyFixedUpdate (current : FixedExpense) (p : UpdateFixedPayload) (now : Int) :
    FixedExpense :=
  let owners :=
    match p.owners with
    | none => current.owners
    | some (some l) => (l.map (jsTrim ·)).filter (fun o => o ≠ "")
    | some none => []
  let nextAmount :=
    match p.amountPerMonth with
    | some v => v.toNum?.getD 0
    | none => current.amountPerMonth
  let priceHistory :=
    if p.resetPriceHistory then [⟨nextAmount, now⟩]
    else match current.priceHistory.getLast? with
      | none => [⟨nextAmount, now⟩]
      | some latest =>
          if latest.amount ≠ nextAmount then current.priceHistory ++ [⟨nextAmount, now⟩]
          else current.priceHistory
  { current with
    name := p.name.getD current.name
    category := p.category.getD current.category
    level := p.level.getD current.level
    startDate := p.startDate.getD current.startDate
    bindingEndDate := p.bindingEndDate.getD current.bindingEndDate
    note := p.note.getD current.note
    owners := owners
    amountPerMonth := nextAmount
    noticePeriodMonths := p.noticePeriodMonths.getD current.noticePeriodMonths
    updatedAt := now
    priceHistory := priceHistory }

/-- The findIndex-and-assign part of updateFixedExpense. -/
def updateFixedGo (id : Int) (p : UpdateFixedPayload) (now : Int) :
    List FixedExpense → List FixedExpense × Option FixedExpense
  | [] => ([], none)
  | e :: rest =>
    if e.id == id then (applyFixedUpdate e p now :: rest, some (applyFixedUpdate e p now))
    else
      let r := updateFixedGo id p now rest
      (e :: r.1, r.2)

/-- Store.updateFixedExpense(id, payload); returns the unchanged state and
none when the id is not found (the route then answers 404). -/
def updateFixedExpense (st : StoreState) (id : Int) (p : UpdateFixedPayload) (now : Int) :
    StoreState × Option FixedExpense :=
  let r := updateFixedGo id p now st.fixedExpenses
  match r.2 with
  | none => (st, none)
  | some e => ({ st with fixedExpenses := r.1 }, some e)

/-- The reset record of Store.resetFixedExpensePriceHistory. -/
def applyFixedReset (e : FixedExpense) (now : Int) : FixedExpense :=
  { e with priceHistory := [⟨e.amountPerMonth, now⟩], updatedAt := now }

/-- The findIndex-and-assign part of resetFixedExpensePriceHistory. -/
def resetFixedGo (id : Int) (now : Int) :
    List FixedExpense → List FixedExpense × Option FixedExpense
  | [] => ([], none)
  | e :: rest =>
    if e.id == id then (applyFixedReset e now :: rest, some (applyFixedReset e now))
    else
      let r := resetFixedGo id now rest
      (e :: r.1, r.2)

/-- Store.resetFixedExpensePriceHistory(id). -/
def resetFixedExpensePriceHistory (st : StoreState) (id : Int) (now : Int) :
    StoreState × Option FixedExpense :=
  let r := resetFixedGo id now st.fixedExpenses
  match r.2 with
  | none => (st, none)
  | some e => ({ st with fixedExpenses := r.1 }, some e)

/-- Store.getSettings(): the normalized view of the settings the dashboard
reads (the legacy single default owner fills an empty list, the list is
deduplicated, the single field mirrors the head). -/
def getSettingsView (s : Settings) : Settings :=
  let defaults0 := normalizeDefaultOwnerList s.defaultFixedExpensesOwners
  let defaults :=
    if defaults0 = [] ∧ jsTrim s.defaultFixedExpensesOwner ≠ "" then
      [jsTrim s.defaultFixedExpensesOwner]
    else defaults0
  { s with
    defaultFixedExpensesOwners := defaults
    defaultFixedExpensesOwner := defaults.headD "" }

/-! ## Export / import (GET /api/export, Store.replaceAll, Store.ensureDefaults) -/

/-- GET /api/export: the six collections of the state, verbatim. -/
def exportPayload (st : StoreState) : StoreState := st

/-- The JSON serialization of a canonical price-history entry, as
normalizeFixedExpense will re-read it. -/
def toRawPriceEntry (en : PriceEntry) : RawPriceEntry :=
  { amount := .num en.amount, price := .missing, «beløp» := .missing, value := .missing,
    changedAt := some en.changedAt, date := none, timestamp := none }

/-- The JSON serialization of a canonical fixed expense, as
normalizeFixedExpense will re-read it (alias fields absent). -/
def toRawFixed (e : FixedExpense) : RawFixedExpense :=
  { id := some e.id
    name := e.name
    navn := ""
    amountPerMonth := .num e.amountPerMonth
    «beløp_per_mnd» := .missing
    amount_per_mnd := .missing
    amount := .missing
    category := e.category
    kategori := ""
    owners := .arr e.owners
    eier := .missing
    eiere := .missing
    level := e.level
    «nivå» := ""
    startDate := e.startDate
    startdato := ""
    bindingEndDate := e.bindingEndDate
    «binding_utløper» := none
    sluttdato := none
    noticePeriodMonths :=
      match e.noticePeriodMonths with
      | some n => .num n
      | none => .missing
    «oppsigelsestid_mnd» := .missing
    note := e.note
    notat := ""
    createdAt := some e.createdAt
    updatedAt := some e.updatedAt
    priceHistory := some (e.priceHistory.map toRawPriceEntry) }

/-- Store.replaceAll(data) on a typed (exported) document.  nowDate models
new Date().toISOString().slice(0, 10).  Ids are present on typed records, so
the index-based fallbacks never fire; data.counters is present, so the
recomputation branch never fires.  The rebuilt settings object carries no
bankModeEnabled key, which reads back as false. -/
def replaceAll (data : StoreState) (now : Int) (nowDate : String) : StoreState :=
  let categories := data.categories.map (fun c =>
    { id := c.id, name := c.name, type := jsOr c.type "expense",
      color := jsOr c.color "#4f46e5", description := jsOr c.description "" : Category })
  let pages := data.pages.map (fun p =>
    { id := p.id, name := p.name, description := jsOr p.description "",
      color := jsOr p.color "#059669" : Page })
  let transactions := data.transactions.map (fun tx =>
    { id := tx.id, title := tx.title, amount := tx.amount, type := jsOr tx.type "expense",
      categoryId := tx.categoryId, pageId := tx.pageId, tags := tx.tags,
      occurredOn := jsOr tx.occurredOn nowDate, notes := jsOr tx.notes "" : Transaction })
  let fixedExpenses := data.fixedExpenses.map (fun e =>
    normalizeFixedExpense (toRawFixed e) e.id now)
  let s := data.settings
  let defaultOwnersFromPayload := normalizeDefaultOwnerList s.defaultFixedExpensesOwners
  let settings : Settings :=
    { monthlyNetIncome := s.monthlyNetIncome
      ownerProfiles := normalizeOwnerProfiles s.ownerProfiles
      defaultFixedExpensesOwner := defaultOwnersFromPayload.headD ""
      defaultFixedExpensesOwners := defaultOwnersFromPayload
      bankModeEnabled := false
      lockEnabled := s.lockEnabled
      lockSalt := s.lockSalt
      lockHash := s.lockHash }
  { categories := categories, pages := pages, transactions := transactions,
    fixedExpenses := fixedExpenses, settings := settings, counters := data.counters }

/-- The four default categories seeded by ensureDefaults on an empty category
list. -/
def addDefaultCategories (st : StoreState) : StoreState :=
  let s1 := (addCategory st ⟨none, "Lønn", "income", "#22c55e", "Inntekter og lønn"⟩).1
  let s2 := (addCategory s1 ⟨none, "Abonnementer", "expense", "#6366f1", "Faste abonnementer"⟩).1
  let s3 := (addCategory s2 ⟨none, "Lån", "expense", "#f97316", "Lån og kreditt"⟩).1
  (addCategory s3 ⟨none, "Sparing", "expense", "#14b8a6", "Sparing og investering"⟩).1

/-- Store.ensureDefaults() on a typed state (the counters/settings presence
branches are vacuous there): normalize the settings, re-normalize every fixed
expense, raise the fixedExpenses counter to the highest id, and seed default
categories when the list is empty. -/
def ensureDefaults (st : StoreState) (now : Int) : StoreState :=
  let s0 := st.settings
  let defaults0 := normalizeDefaultOwnerList s0.defaultFixedExpensesOwners
  let legacyDefault := jsTrim s0.defaultFixedExpensesOwner
  let defaults := if legacyDefault ≠ "" ∧ defaults0 = [] then [legacyDefault] else defaults0
  let settings : Settings :=
    { s0 with
      ownerProfiles := normalizeOwnerProfiles s0.ownerProfiles
      defaultFixedExpensesOwners := defaults
      defaultFixedExpensesOwner := defaults.headD ""
      lockSalt := if s0.lockEnabled then s0.lockSalt else ""
      lockHash := if s0.lockEnabled then s0.lockHash else "" }
  let fixedExpenses := st.fixedExpenses.enum.map (fun ie =>
    normalizeFixedExpense (toRawFixed ie.2) ((ie.1 : Int) + 1) now)
  let highestFixedId := (fixedExpenses.map (fun e => e.id)).foldl max 0
  let counters :=
    { st.counters with fixedExpenses := (max st.counters.fixedExpenses highestFixedId : Int) }
  let st1 : StoreState := { st with
    settings := settings
    fixedExpenses := fixedExpenses
    counters := counters }
  if st1.categories = [] then addDefaultCategories st1 else st1

/-- POST /api/import of an exported document: replaceAll then ensureDefaults. -/
def importRoundTrip (st : StoreState) (now : Int) (nowDate : String) : StoreState :=
  ensureDefaults (replaceAll (exportPayload st) now nowDate) now

/-! ## The dashboard aggregation (GET /api/dashboard of index.js) -/

structure MonthlyEntry where
  period : String
  income : Int
  expenses : Int
deriving DecidableEq, Repr

/-- Adding one transaction into its period bucket. -/
def monthlyBump (tx : Transaction) (e : MonthlyEntry) : MonthlyEntry :=
  if tx.type = "income" then { e with income := e.income + tx.amount }
  else { e with expenses := e.expenses + tx.amount }

/-- One step of the monthlyMap fold: update the existing period entry in
place, or append a fresh {period, 0, 0} bucket and update it. -/
def monthlyStep (acc : List MonthlyEntry) (tx : Transaction) : List MonthlyEntry :=
  let period := tx.occurredOn.take 7
  if acc.any (fun e => e.period = period) then
    acc.map (fun e => if e.period = period then monthlyBump tx e else e)
  else acc ++ [monthlyBump tx ⟨period, 0, 0⟩]

/-- Object.values(monthlyMap) in insertion order. -/
def monthlyUnsorted (txs : List Transaction) : List MonthlyEntry :=
  txs.foldl monthlyStep []

/-- The monthly series: buckets sorted ascending by period string. -/
def monthly (txs : List Transaction) : List MonthlyEntry :=
  (monthlyUnsorted txs).insertionSort (fun a b => a.period ≤ b.period)

structure TagTotal where
  tag : String
  total : Int
deriving DecidableEq, Repr

/-- The tagTotals object as an insertion-ordered map. -/
def tagTotals (txs : List Transaction) : List TagTotal :=
  (txs.foldl (fun acc tx =>
    tx.tags.foldl (fun acc tag =>
      upsertAdd acc tag (if tx.type = "expense" then -tx.amount else tx.amount)) acc) []).map
    (fun kv => ⟨kv.1, kv.2⟩)

structure CategoryTotalEntry where
  category : Category
  total : Int
deriving DecidableEq, Repr

/-- categoryTotals: every category with the sum of its expense-type
transactions (the JS spreads the category fields next to total). -/
def categoryTotals (cats : List Category) (txs : List Transaction) : List CategoryTotalEntry :=
  cats.map (fun c =>
    ⟨c, sumBy (·.amount) (txs.filter (fun tx => tx.categoryId == some c.id && tx.type == "expense"))⟩)

structure PageBalance where
  name : String
  balance : Int
  totalIncome : Int
  totalExpense : Int
deriving DecidableEq, Repr

/-- pageBalances: per page, the income/expense/balance fold over its
transactions. -/
def pageBalances (pages : List Page) (txs : List Transaction) : List PageBalance :=
  pages.map (fun p =>
    let totals := (txs.filter (fun tx => tx.pageId == some p.id)).foldl
      (fun acc tx =>
        if tx.type = "income" then
          (acc.1 + tx.amount, acc.2.1 + tx.amount, acc.2.2)
        else
          (acc.1 - tx.amount, acc.2.1, acc.2.2 + tx.amount))
      ((0, 0, 0) : Int × Int × Int)
    ⟨p.name, totals.1, totals.2.1, totals.2.2⟩)

/-- The categoryColorMap lookup: the color of the last category with the
name, with the gray default for a missing name or falsy color. -/
def categoryColor (cats : List Category) (name : String) : String :=
  jsOr ((((cats.filter (fun c => c.name == name)).getLast?).map (·.color)).getD "") "#94a3b8"

structure FixedCategoryTotal where
  category : String
  total : Int
  color : String
deriving DecidableEq, Repr

/-- fixedExpenseCategoryTotals over the (already owner-filtered) fixed
expenses: totals keyed by "category || 'Annet'", colored, sorted descending
by total. -/
def fixedExpenseCategoryTotals (cats : List Category) (fs : List FixedExpense) :
    List FixedCategoryTotal :=
  ((fs.foldl (fun acc e => upsertAdd acc (jsOr e.category "Annet") e.amountPerMonth) []).map
    (fun kv => (⟨kv.1, kv.2, categoryColor cats kv.1⟩ : FixedCategoryTotal))).insertionSort
    (fun a b => b.total ≤ a.total)

structure LevelTotal where
  level : String
  total : Int
deriving DecidableEq, Repr

/-- fixedExpenseLevelTotals over the (already owner-filtered) fixed expenses:
totals keyed by "level || 'Må-ha'", sorted descending by total. -/
def fixedExpenseLevelTotals (fs : List FixedExpense) : List LevelTotal :=
  ((fs.foldl (fun acc e => upsertAdd acc (jsOr e.level "Må-ha") e.amountPerMonth) []).map
    (fun kv => (⟨kv.1, kv.2⟩ : LevelTotal))).insertionSort (fun a b => b.total ≤ a.total)

/-- Milliseconds per day. -/
def msPerDay : Int := 86400000

/-- daysLeft: Math.ceil((bindingTime - now) / (1000*60*60*24)). -/
def daysLeftOf (bindingTime now : Int) : Int := jsCeilDiv (bindingTime - now) msPerDay

structure BindingEntry where
  id : Int
  name : String
  bindingEndDate : Option Int
  category : String
  amountPerMonth : Int
  daysLeft : Int
deriving DecidableEq, Repr

/-- The projection of one fixed expense into a binding-expiry alert (the map
stage runs only on expenses whose bindingEndDate is truthy, so the getD is
never exercised on none). -/
def bindingEntryOf (e : FixedExpense) (now : Int) : BindingEntry :=
  ⟨e.id, e.name, e.bindingEndDate, e.category, e.amountPerMonth,
    daysLeftOf (e.bindingEndDate.getD 0) now⟩

/-- bindingExpirations over the (already owner-filtered) fixed expenses:
those with a bindingEndDate whose daysLeft lies in [0, 90], sorted ascending
by expiry date. -/
def bindingExpirations (fs : List FixedExpense) (now : Int) : List BindingEntry :=
  ((((fs.filter (fun e => e.bindingEndDate.isSome)).map (fun e => bindingEntryOf e now)).filter
    (fun it => decide (0 ≤ it.daysLeft ∧ it.daysLeft ≤ 90))).insertionSort
    (fun a b => a.bindingEndDate.getD 0 ≤ b.bindingEndDate.getD 0))

structure ExpensePriceHistory where
  id : Int
  name : String
  category : String
  color : String
  priceHistory : List PriceEntry
deriving DecidableEq, Repr

/-- fixedExpensePriceHistory over the (already owner-filtered) fixed
expenses: each expense's history re-sorted chronologically, keeping only
expenses whose history has more than one entry.  (The source also drops
entries with a falsy changedAt string and re-coerces amounts with
Number(x) || 0; both are the identity in the epoch-millisecond model.) -/
def fixedExpensePriceHistory (cats : List Category) (fs : List FixedExpense) :
    List ExpensePriceHistory :=
  (fs.map (fun e =>
    (⟨e.id, e.name, e.category, categoryColor cats e.category,
      (e.priceHistory.map (fun en => (⟨en.amount, en.changedAt⟩ : PriceEntry))).insertionSort
        (fun a b => a.changedAt ≤ b.changedAt)⟩ : ExpensePriceHistory))).filter
    (fun it => 1 < it.priceHistory.length)

/-- One step of the ownerIncomeMap fold: the name must be truthy and the
income finite; Map.set overwrites a previous entry for the name. -/
def incomeStep (acc : List (String × Int)) (p : OwnerProfile) : List (String × Int) :=
  if p.name ≠ "" then
    match p.monthlyNetIncome with
    | some v => upsertSet acc p.name v
    | none => acc
  else acc

/-- The ownerIncomeMap fold. -/
def incomePairs (profiles : List OwnerProfile) : List (String × Int) :=
  profiles.foldl incomeStep []

/-- One step of the ownerContributionMap fold. -/
def contributionStep (acc : List (String × Int)) (p : OwnerProfile) : List (String × Int) :=
  if p.name ≠ "" then
    match p.sharedContribution with
    | some v => upsertSet acc p.name v
    | none => acc
  else acc

/-- The ownerContributionMap fold. -/
def contributionPairs (profiles : List OwnerProfile) : List (String × Int) :=
  profiles.foldl contributionStep []

/-- participatingOwners: the active filter when non-empty, otherwise the
deduplicated truthy profile names. -/
def participatingOwnersOf (defaultOwners : List String) (profiles : List OwnerProfile) :
    List String :=
  if defaultOwners = [] then setDedup ((profiles.map (·.name)).filter (fun n => n ≠ ""))
  else defaultOwners

/-- filteredFixedExpenses: all expenses when the filter is empty, otherwise
those whose owners intersect it. -/
def filterFixedByOwners (fs : List FixedExpense) (defaultOwners : List String) :
    List FixedExpense :=
  if defaultOwners = [] then fs
  else fs.filter (fun e => e.owners.any (fun o => defaultOwners.contains o))

/-- effectiveFixedExpenseTotal: the amount sum over the owner-filtered fixed
expenses. -/
def effectiveFixedExpenseTotalOf (fs : List FixedExpense) (defaultOwners : List String) : Int :=
  sumBy (·.amountPerMonth) (filterFixedByOwners fs defaultOwners)

structure OwnerStat where
  name : String
  monthlyNetIncome : Int
  sharedContribution : Int
  remainingPersonal : Int
deriving DecidableEq, Repr

structure BankModeSummary where
  enabled : Bool
  totalIncome : Int
  totalContribution : Int
  freeAfterFixed : Int
  remainingPersonal : Int
  owners : List OwnerStat
deriving DecidableEq, Repr

structure Dashboard where
  totalIncome : Int
  totalExpense : Int
  net : Int
  categoryTotals : List CategoryTotalEntry
  monthly : List MonthlyEntry
  tagTotals : List TagTotal
  pageBalances : List PageBalance
  fixedExpenseTotal : Int
  fixedExpenseCategoryTotals : List FixedCategoryTotal
  fixedExpenseLevelTotals : List LevelTotal
  monthlyNetIncome : Int
  activeMonthlyNetIncome : Int
  freeAfterFixed : Int
  bankModeSummary : BankModeSummary
  effectiveFixedExpenseTotal : Int
  bindingExpirations : List BindingEntry
  fixedExpensesCount : Nat
  fixedExpensePriceHistory : List ExpensePriceHistory
deriving DecidableEq, Repr

/-- The GET /api/dashboard handler as a pure function of the store snapshot
and "now". -/
def dashboard (st : StoreState) (now : Int) : Dashboard :=
  let transactions := st.transactions
  let categories := st.categories
  let pages := st.pages
  let fixedExpenses := st.fixedExpenses
  let settings := getSettingsView st.settings
  let totalIncome := sumBy (·.amount) (transactions.filter (fun tx => tx.type == "income"))
  let totalExpense := sumBy (·.amount) (transactions.filter (fun tx => tx.type == "expense"))
  let fixedExpenseTotal := sumBy (·.amountPerMonth) fixedExpenses
  let ownerProfiles := settings.ownerProfiles
  let ownerIncome := incomePairs ownerProfiles
  let ownerContribution := contributionPairs ownerProfiles
  let defaultOwners := settings.defaultFixedExpensesOwners.filter (fun o => o ≠ "")
  let bankModeEnabled := settings.bankModeEnabled
  let participatingOwners := participatingOwnersOf defaultOwners ownerProfiles
  let filteredFixedExpenses := filterFixedByOwners fixedExpenses defaultOwners
  let effectiveFixedExpenseTotal := effectiveFixedExpenseTotalOf fixedExpenses defaultOwners
  let monthlyNetIncome := settings.monthlyNetIncome
  let ownersHaveCompleteIncome := defaultOwners.all (fun o => (mapGet ownerIncome o).isSome)
  let ownerIncomeSum := sumBy (fun o => (mapGet ownerIncome o).getD 0) defaultOwners
  let bankModeOwnerStats := participatingOwners.map (fun o =>
    let inc := (mapGet ownerIncome o).getD 0
    let con := (mapGet ownerContribution o).getD 0
    (⟨o, inc, con, inc - con⟩ : OwnerStat))
  let bankModeTotalIncome := sumBy (·.monthlyNetIncome) bankModeOwnerStats
  let bankModeTotalContribution := sumBy (·.sharedContribution) bankModeOwnerStats
  let activeMonthlyNetIncome :=
    if bankModeEnabled then bankModeTotalContribution
    else if defaultOwners ≠ [] ∧ ownersHaveCompleteIncome then ownerIncomeSum
    else monthlyNetIncome
  let freeAfterFixed := activeMonthlyNetIncome - effectiveFixedExpenseTotal
  let bankModeFreeAfterFixed := bankModeTotalContribution - effectiveFixedExpenseTotal
  let bankModeRemainingPersonal := sumBy (·.remainingPersonal) bankModeOwnerStats
  { totalIncome := totalIncome
    totalExpense := totalExpense
    net := totalIncome - totalExpense
    categoryTotals := categoryTotals categories transactions
    monthly := monthly transactions
    tagTotals := tagTotals transactions
    pageBalances := pageBalances pages transactions
    fixedExpenseTotal := fixedExpenseTotal
    fixedExpenseCategoryTotals := fixedExpenseCategoryTotals categories filteredFixedExpenses
    fixedExpenseLevelTotals := fixedExpenseLevelTotals filteredFixedExpenses
    monthlyNetIncome := monthlyNetIncome
    activeMonthlyNetIncome := activeMonthlyNetIncome
    freeAfterFixed := freeAfterFixed
    bankModeSummary :=
      { enabled := bankModeEnabled
        totalIncome := bankModeTotalIncome
        totalContribution := bankModeTotalContribution
        freeAfterFixed := bankModeFreeAfterFixed
        remainingPersonal := bankModeRemainingPersonal
        owners := bankModeOwnerStats }
    effectiveFixedExpenseTotal := effectiveFixedExpenseTotal
    bindingExpirations := bindingExpirations filteredFixedExpenses now
    fixedExpensesCount := fixedExpenses.length
    fixedExpensePriceHistory := fixedExpensePriceHistory categories filteredFixedExpenses }

/-! ## General lemmas about the JS-idiom helpers -/

theorem sumBy_eq_sum_map {α : Type} (f : α → Int) (l : List α) :
    sumBy f l = (l.map f).sum := by
  suffices h : ∀ init : Int, l.foldl (fun s x => s + f x) init = init + (l.map f).sum by
    simpa using h 0
  induction l with
  | nil => intro init; simp
  | cons a l ih => intro init; simp [ih, add_assoc]

theorem mem_setDedupAux {α : Type} [DecidableEq α] (seen l : List α) (x : α) :
    x ∈ setDedupAux seen l ↔ x ∈ l ∧ x ∉ seen := by
  induction l generalizing seen with
  | nil => simp [setDedupAux]
  | cons a rest ih =>
    by_cases ha : a ∈ seen
    · rw [setDedupAux, if_pos ha, ih]
      constructor
      · rintro ⟨h1, h2⟩
        exact ⟨List.mem_cons_of_mem _ h1, h2⟩
      · rintro ⟨h1, h2⟩
        rcases List.mem_cons.mp h1 with rfl | h1
        · exact absurd ha h2
        · exact ⟨h1, h2⟩
    · rw [setDedupAux, if_neg ha]
      simp only [List.mem_cons, ih]
      constructor
      · rintro (rfl | ⟨h1, h2⟩)
        · exact ⟨Or.inl rfl, ha⟩
        · exact ⟨Or.inr h1, fun hs => h2 (Or.inr hs)⟩
      · rintro ⟨h1 | h1, h2⟩
        · exact Or.inl h1
        · by_cases hxa : x = a
          · exact Or.inl hxa
          · refine Or.inr ⟨h1, ?_⟩
            rintro (h | h)
            · exact hxa h
            · exact h2 h

theorem mem_setDedup {α : Type} [DecidableEq α] (l : List α) (x : α) :
    x ∈ setDedup l ↔ x ∈ l := by
  simp [setDedup, mem_setDedupAux]

theorem setDedupAux_of_nodup {α : Type} [DecidableEq α] (seen l : List α)
    (h : l.Nodup) (hd : ∀ x ∈ l, x ∉ seen) : setDedupAux seen l = l := by
  induction l generalizing seen with
  | nil => rfl
  | cons a rest ih =>
    have ha : a ∉ seen := hd a (by simp)
    simp only [setDedupAux, if_neg ha]
    congr 1
    refine ih (a :: seen) (h.of_cons) ?_
    intro x hx
    simp only [List.mem_cons]
    rintro (rfl | hs)
    · exact (List.nodup_cons.mp h).1 hx
    · exact hd x (by simp [hx]) hs

theorem setDedup_of_nodup {α : Type} [DecidableEq α] (l : List α) (h : l.Nodup) :
    setDedup l = l :=
  setDedupAux_of_nodup [] l h (by simp)

/-- C3: for every store snapshot, totalIncome is the amount sum over
income-type transactions, totalExpense the amount sum over expense-type
transactions, and net their difference. -/
theorem dashboard_totals_reconcile (st : StoreState) (now : Int) :
    (dashboard st now).totalIncome
        = ((st.transactions.filter (fun tx => tx.type == "income")).map (·.amount)).sum ∧
    (dashboard st now).totalExpense
        = ((st.transactions.filter (fun tx => tx.type == "expense")).map (·.amount)).sum ∧
    (dashboard st now).net
        = (dashboard st now).totalIncome - (dashboard st now).totalExpense := by
  refine ⟨?_, ?_, ?_⟩ <;> simp [dashboard, sumBy_eq_sum_map]

/-! ## The monthly grouping (C4) -/

/-- The income sum of transactions in a given period. -/
def periodIncomeSum (txs : List Transaction) (p : String) : Int :=
  ((txs.filter (fun tx => tx.occurredOn.take 7 == p && tx.type == "income")).map (·.amount)).sum

/-- The non-income sum of transactions in a given period (the else-branch of
the monthlyMap fold). -/
def periodNonIncomeSum (txs : List Transaction) (p : String) : Int :=
  ((txs.filter (fun tx => tx.occurredOn.take 7 == p && tx.type != "income")).map (·.amount)).sum

/-- The expense-type sum of transactions in a given period. -/
def periodExpenseSum (txs : List Transaction) (p : String) : Int :=
  ((txs.filter (fun tx => tx.occurredOn.take 7 == p && tx.type == "expense")).map (·.amount)).sum

theorem periodIncomeSum_append_single (ts : List Transaction) (t : Transaction) (p : String) :
    periodIncomeSum (ts ++ [t]) p =
      periodIncomeSum ts p +
        (if t.occurredOn.take 7 = p ∧ t.type = "income" then t.amount else 0) := by
  by_cases h1 : t.occurredOn.take 7 = p <;> by_cases h2 : t.type = "income" <;>
    simp [periodIncomeSum, List.filter_append, List.filter_cons, h1, h2]

theorem periodNonIncomeSum_append_single (ts : List Transaction) (t : Transaction) (p : String) :
    periodNonIncomeSum (ts ++ [t]) p =
      periodNonIncomeSum ts p +
        (if t.occurredOn.take 7 = p ∧ ¬ t.type = "income" then t.amount else 0) := by
  by_cases h1 : t.occurredOn.take 7 = p <;> by_cases h2 : t.type = "income" <;>
    simp [periodNonIncomeSum, List.filter_append, List.filter_cons, h1, h2]

theorem periodIncomeSum_eq_zero (ts : List Transaction) (p : String)
    (h : ∀ tx ∈ ts, tx.occurredOn.take 7 ≠ p) : periodIncomeSum ts p = 0 := by
  have : ts.filter (fun tx => tx.occurredOn.take 7 == p && tx.type == "income") = [] := by
    rw [List.filter_eq_nil_iff]
    intro tx htx
    simp [h tx htx]
  simp [periodIncomeSum, this]

theorem periodNonIncomeSum_eq_zero (ts : List Transaction) (p : String)
    (h : ∀ tx ∈ ts, tx.occurredOn.take 7 ≠ p) : periodNonIncomeSum ts p = 0 := by
  have : ts.filter (fun tx => tx.occurredOn.take 7 == p && tx.type != "income") = [] := by
    rw [List.filter_eq_nil_iff]
    intro tx htx
    simp [h tx htx]
  simp [periodNonIncomeSum, this]

theorem period_monthlyBump (t : Transaction) (e : MonthlyEntry) :
    (monthlyBump t e).period = e.period := by
  simp only [monthlyBump]
  split <;> rfl

set_option maxHeartbeats 2000000 in
theorem monthlyUnsorted_spec (txs : List Transaction) :
    ((monthlyUnsorted txs).map (·.period)).Nodup ∧
    (∀ p, p ∈ (monthlyUnsorted txs).map (·.period) ↔
        p ∈ txs.map (fun tx => tx.occurredOn.take 7)) ∧
    (∀ e ∈ monthlyUnsorted txs, e.income = periodIncomeSum txs e.period ∧
        e.expenses = periodNonIncomeSum txs e.period) := by
  induction txs using List.reverseRecOn with
  | nil => simp [monthlyUnsorted]
  | append_singleton ts t ih =>
    obtain ⟨hnd, hmem, hsum⟩ := ih
    have hstep : monthlyUnsorted (ts ++ [t]) = monthlyStep (monthlyUnsorted ts) t := by
      simp [monthlyUnsorted, List.foldl_append]
    rw [hstep]
    by_cases hany : ((monthlyUnsorted ts).any fun e => e.period = t.occurredOn.take 7) = true
    · -- in-place update of the existing bucket
      have hres : monthlyStep (monthlyUnsorted ts) t =
          (monthlyUnsorted ts).map (fun e =>
            if e.period = t.occurredOn.take 7 then monthlyBump t e else e) := by
        simp only [monthlyStep, if_pos hany]
      have hper : ((monthlyUnsorted ts).map (fun e =>
          if e.period = t.occurredOn.take 7 then monthlyBump t e else e)).map (·.period) =
          (monthlyUnsorted ts).map (·.period) := by
        rw [List.map_map]
        refine List.map_congr_left ?_
        intro e _
        by_cases he : e.period = t.occurredOn.take 7 <;>
          simp [he, period_monthlyBump]
      have htpmem : t.occurredOn.take 7 ∈ (monthlyUnsorted ts).map (·.period) := by
        rcases List.any_eq_true.mp hany with ⟨e, he, hpe⟩
        exact List.mem_map.mpr ⟨e, he, of_decide_eq_true hpe⟩
      rw [hres]
      refine ⟨by rw [hper]; exact hnd, ?_, ?_⟩
      · intro p
        rw [hper, hmem p]
        simp only [List.map_append, List.mem_append, List.map_cons, List.map_nil,
          List.mem_singleton]
        constructor
        · exact Or.inl
        · rintro (h | h)
          · exact h
          · rw [h]
            exact (hmem _).mp htpmem
      · intro e' he'
        obtain ⟨e, he, hfe⟩ := List.mem_map.mp he'
        rw [← hfe]
        obtain ⟨hi, hx⟩ := hsum e he
        by_cases hep : e.period = t.occurredOn.take 7
        · rw [if_pos hep]
          have hper2 : (monthlyBump t e).period = e.period := period_monthlyBump t e
          rw [hper2, periodIncomeSum_append_single, periodNonIncomeSum_append_single]
          by_cases hty : t.type = "income"
          · constructor
            · simp only [monthlyBump, if_pos hty]
              rw [hi]
              rw [if_pos ⟨hep.symm, hty⟩]
            · simp only [monthlyBump, if_pos hty]
              rw [hx]
              rw [if_neg (by simp [hty])]
              ring
          · constructor
            · simp only [monthlyBump, if_neg hty]
              rw [hi]
              rw [if_neg (by simp [hty])]
              ring
            · simp only [monthlyBump, if_neg hty]
              rw [hx]
              rw [if_pos ⟨hep.symm, hty⟩]
        · rw [if_neg hep]
          rw [periodIncomeSum_append_single, periodNonIncomeSum_append_single]
          rw [if_neg (by intro hc; exact hep hc.1.symm), if_neg (by intro hc; exact hep hc.1.symm)]
          simpa using ⟨hi, hx⟩
    · -- fresh bucket appended at the end
      have hres : monthlyStep (monthlyUnsorted ts) t =
          monthlyUnsorted ts ++ [monthlyBump t ⟨t.occurredOn.take 7, 0, 0⟩] := by
        simp only [monthlyStep, if_neg hany]
      have hnotmem : t.occurredOn.take 7 ∉ (monthlyUnsorted ts).map (·.period) := by
        intro hc
        rcases List.mem_map.mp hc with ⟨e, he, hpe⟩
        exact hany (List.any_eq_true.mpr ⟨e, he, decide_eq_true hpe⟩)
      have hnots : t.occurredOn.take 7 ∉ ts.map (fun tx => tx.occurredOn.take 7) := by
        intro hc
        exact hnotmem ((hmem _).mpr hc)
      rw [hres]
      have hperiods : (monthlyUnsorted ts ++ [monthlyBump t ⟨t.occurredOn.take 7, 0, 0⟩]).map
          (·.period) = (monthlyUnsorted ts).map (·.period) ++ [t.occurredOn.take 7] := by
        simp [period_monthlyBump]
      refine ⟨?_, ?_, ?_⟩
      · rw [hperiods]
        refine List.Nodup.append hnd (List.nodup_singleton _) ?_
        intro a ha hb
        rw [List.mem_singleton] at hb
        rw [hb] at ha
        exact hnotmem ha
      · intro p
        rw [hperiods]
        simp only [List.map_append, List.mem_append, List.map_cons, List.map_nil,
          List.mem_singleton]
        rw [hmem p]
      · intro e' he'
        rcases List.mem_append.mp he' with he' | he'
        · obtain ⟨hi, hx⟩ := hsum e' he'
          have hep : e'.period ≠ t.occurredOn.take 7 := by
            intro hc
            exact hnotmem (hc ▸ List.mem_map_of_mem (·.period) he')
          rw [periodIncomeSum_append_single, periodNonIncomeSum_append_single]
          rw [if_neg (by intro hc; exact hep hc.1.symm), if_neg (by intro hc; exact hep hc.1.symm)]
          simpa using ⟨hi, hx⟩
        · have he'eq := List.mem_singleton.mp he'
          have hz : ∀ tx ∈ ts, tx.occurredOn.take 7 ≠ t.occurredOn.take 7 := by
            intro tx htx hc
            refine hnots ?_
            rw [← hc]
            exact List.mem_map_of_mem _ htx
          rw [he'eq, period_monthlyBump, periodIncomeSum_append_single,
            periodNonIncomeSum_append_single, periodIncomeSum_eq_zero ts _ hz,
            periodNonIncomeSum_eq_zero ts _ hz]
          by_cases hty : t.type = "income" <;> simp [monthlyBump, hty]

theorem periodNonIncome_eq_expense (txs : List Transaction) (p : String)
    (h : ∀ tx ∈ txs, tx.type = "income" ∨ tx.type = "expense") :
    periodNonIncomeSum txs p = periodExpenseSum txs p := by
  unfold periodNonIncomeSum periodExpenseSum
  have : txs.filter (fun tx => tx.occurredOn.take 7 == p && tx.type != "income") =
      txs.filter (fun tx => tx.occurredOn.take 7 == p && tx.type == "expense") := by
    refine List.filter_congr ?_
    intro tx htx
    rcases h tx htx with hty | hty <;> simp [hty]
  rw [this]

/-- C4: the dashboard's monthly output groups transactions by the first seven
characters of occurredOn, has exactly one entry per occurring period with the
per-type amount sums (the expense sum under the data-model assumption that
every type is income or expense), is sorted ascending by period, and the
concrete two-transaction scenario yields one 2024-01 bucket. -/
theorem dashboard_monthly_correct (st : StoreState) (now : Int) :
    (dashboard st now).monthly = monthly st.transactions ∧
    (monthly st.transactions).Sorted (fun a b => a.period ≤ b.period) ∧
    ((monthly st.transactions).map (·.period)).Nodup ∧
    (∀ p, p ∈ (monthly st.transactions).map (·.period) ↔
        p ∈ st.transactions.map (fun tx => tx.occurredOn.take 7)) ∧
    (∀ e ∈ monthly st.transactions,
        e.income = periodIncomeSum st.transactions e.period ∧
        ((∀ tx ∈ st.transactions, tx.type = "income" ∨ tx.type = "expense") →
          e.expenses = periodExpenseSum st.transactions e.period)) ∧
    monthly [⟨1, "Lønn", 1000, "income", none, none, [], "2024-01-05", ""⟩,
        ⟨2, "Mat", 400, "expense", some 1, none, [], "2024-01-20", ""⟩] =
      [⟨"2024-01", 1000, 400⟩] := by
  obtain ⟨hnd, hmem, hsum⟩ := monthlyUnsorted_spec st.transactions
  have hperm : (monthly st.transactions).Perm (monthlyUnsorted st.transactions) :=
    (monthlyUnsorted st.transactions).perm_insertionSort _
  refine ⟨by simp [dashboard], ?_, ?_, ?_, ?_, by decide⟩
  · letI : IsTotal MonthlyEntry (fun a b => a.period ≤ b.period) :=
      ⟨fun a b => le_total a.period b.period⟩
    letI : IsTrans MonthlyEntry (fun a b => a.period ≤ b.period) :=
      ⟨fun a b c hab hbc => le_trans hab hbc⟩
    exact List.sorted_insertionSort _ _
  · exact ((hperm.map (·.period)).nodup_iff).mpr hnd
  · intro p
    exact ((hperm.map (·.period)).mem_iff).trans (hmem p)
  · intro e he
    have he' : e ∈ monthlyUnsorted st.transactions := hperm.mem_iff.mp he
    obtain ⟨hi, hx⟩ := hsum e he'
    exact ⟨hi, fun h => by rw [hx, periodNonIncome_eq_expense st.transactions e.period h]⟩

/-- A one-transaction store used to witness C4. -/
def c4tx : Transaction := ⟨1, "Lønn", 1000, "income", none, none, [], "2024-01-05", ""⟩

/-- A one-transaction store used to witness C4. -/
def c4state : StoreState where
  categories := []
  pages := []
  transactions := [c4tx]
  fixedExpenses := []
  settings := ⟨0, [], "", [], false, false, "", ""⟩
  counters := ⟨0, 0, 0, 0⟩

/-- Witness for C4: the general bucket-sum statement applied at the concrete
one-transaction store, all hypotheses discharged by evaluation. -/
theorem dashboard_monthly_correct_witness :
    (1000 : Int) = periodIncomeSum c4state.transactions "2024-01" ∧
    (0 : Int) = periodExpenseSum c4state.transactions "2024-01" := by
  have h := (dashboard_monthly_correct c4state 0).2.2.2.2.1 ⟨"2024-01", 1000, 0⟩ (by decide)
  exact ⟨h.1, h.2 (by decide)⟩

/-! ## Binding expirations (C5) -/

/-- C5: an owner-filtered fixed expense with a binding end date appears in
bindingExpirations exactly when its daysLeft (the ceiling of the millisecond
difference over one day) lies in [0, 90]; the output is sorted ascending by
expiry date and every entry carries the computed daysLeft. -/
theorem bindingExpirations_window (fs : List FixedExpense) (now : Int) :
    (bindingExpirations fs now).Sorted
      (fun a b => a.bindingEndDate.getD 0 ≤ b.bindingEndDate.getD 0) ∧
    (∀ en ∈ bindingExpirations fs now, ∃ e ∈ fs, ∃ t : Int, e.bindingEndDate = some t ∧
        en = bindingEntryOf e now ∧ en.daysLeft = jsCeilDiv (t - now) msPerDay ∧
        0 ≤ en.daysLeft ∧ en.daysLeft ≤ 90) ∧
    (∀ e ∈ fs, ∀ t : Int, e.bindingEndDate = some t →
        (bindingEntryOf e now ∈ bindingExpirations fs now ↔
          (0 ≤ jsCeilDiv (t - now) msPerDay ∧ jsCeilDiv (t - now) msPerDay ≤ 90))) := by
  have hperm : (bindingExpirations fs now).Perm
      (((fs.filter (fun e => e.bindingEndDate.isSome)).map
        (fun e => bindingEntryOf e now)).filter
        (fun it => decide (0 ≤ it.daysLeft ∧ it.daysLeft ≤ 90))) :=
    List.perm_insertionSort _ _
  refine ⟨?_, ?_, ?_⟩
  · letI : IsTotal BindingEntry (fun a b => a.bindingEndDate.getD 0 ≤ b.bindingEndDate.getD 0) :=
      ⟨fun a b => le_total _ _⟩
    letI : IsTrans BindingEntry (fun a b => a.bindingEndDate.getD 0 ≤ b.bindingEndDate.getD 0) :=
      ⟨fun a b c hab hbc => le_trans hab hbc⟩
    exact List.sorted_insertionSort _ _
  · intro en hen
    have hen' := hperm.mem_iff.mp hen
    obtain ⟨henm, hcond⟩ := List.mem_filter.mp hen'
    obtain ⟨e, hef, heq⟩ := List.mem_map.mp henm
    obtain ⟨hefs, hsome⟩ := List.mem_filter.mp hef
    obtain ⟨t, ht⟩ := Option.isSome_iff_exists.mp (by simpa using hsome)
    have hdl : en.daysLeft = jsCeilDiv (t - now) msPerDay := by
      rw [← heq]
      simp [bindingEntryOf, daysLeftOf, ht]
    have hrange : 0 ≤ en.daysLeft ∧ en.daysLeft ≤ 90 := of_decide_eq_true hcond
    exact ⟨e, hefs, t, ht, heq.symm, hdl, hrange⟩
  · intro e hefs t ht
    have hdl : (bindingEntryOf e now).daysLeft = jsCeilDiv (t - now) msPerDay := by
      simp [bindingEntryOf, daysLeftOf, ht]
    rw [hperm.mem_iff]
    constructor
    · intro hmem
      have hcond := (List.mem_filter.mp hmem).2
      have := of_decide_eq_true hcond
      rw [hdl] at this
      exact this
    · intro hrange
      refine List.mem_filter.mpr ⟨?_, ?_⟩
      · refine List.mem_map.mpr ⟨e, ?_, rfl⟩
        refine List.mem_filter.mpr ⟨hefs, ?_⟩
        simp [ht]
      · rw [decide_eq_true_iff, hdl]
        exact hrange

/-- A fixed expense whose binding ends exactly n days after "now = 0". -/
def c5exp (days : Int) : FixedExpense :=
  ⟨1, "Strøm", 500, "Annet", [], "Må-ha", "", some (days * 86400000), none, "", 0, 0,
    [⟨500, 0⟩]⟩

/-- Witness for C5: at 90 days the expense appears, at 91 days and at minus
one day it does not. -/
theorem bindingExpirations_window_witness :
    bindingEntryOf (c5exp 90) 0 ∈ bindingExpirations [c5exp 90] 0 ∧
    bindingEntryOf (c5exp 91) 0 ∉ bindingExpirations [c5exp 91] 0 ∧
    bindingEntryOf (c5exp (-1)) 0 ∉ bindingExpirations [c5exp (-1)] 0 := by
  refine ⟨?_, ?_, ?_⟩
  · exact ((bindingExpirations_window [c5exp 90] 0).2.2 (c5exp 90) (by decide)
      (90 * 86400000) (by decide)).mpr (by decide)
  · intro hmem
    have := ((bindingExpirations_window [c5exp 91] 0).2.2 (c5exp 91) (by decide)
      (91 * 86400000) (by decide)).mp hmem
    revert this
    decide
  · intro hmem
    have := ((bindingExpirations_window [c5exp (-1)] 0).2.2 (c5exp (-1)) (by decide)
      ((-1) * 86400000) (by decide)).mp hmem
    revert this
    decide

/-! ## Keyed totals maps (C6) -/

/-- The generic shape of the dashboard's keyed totals folds. -/
def assocTotals {α : Type} (key : α → String) (val : α → Int) (xs : List α) :
    List (String × Int) :=
  xs.foldl (fun acc x => upsertAdd acc (key x) (val x)) []

theorem keyedSum_append_single {α : Type} (key : α → String) (val : α → Int)
    (xs : List α) (x : α) (k : String) :
    (((xs ++ [x]).filter (fun y => key y == k)).map val).sum =
      ((xs.filter (fun y => key y == k)).map val).sum +
        (if key x = k then val x else 0) := by
  by_cases h : key x = k <;>
    simp [List.filter_append, List.filter_cons, h]

theorem keyedSum_eq_zero {α : Type} (key : α → String) (val : α → Int)
    (xs : List α) (k : String) (h : ∀ x ∈ xs, key x ≠ k) :
    ((xs.filter (fun y => key y == k)).map val).sum = 0 := by
  have : xs.filter (fun y => key y == k) = [] := by
    rw [List.filter_eq_nil_iff]
    intro x hx
    simp [h x hx]
  simp [this]

set_option maxHeartbeats 1000000 in
theorem assocTotals_spec {α : Type} (key : α → String) (val : α → Int) (xs : List α) :
    ((assocTotals key val xs).map Prod.fst).Nodup ∧
    (∀ k, k ∈ (assocTotals key val xs).map Prod.fst ↔ k ∈ xs.map key) ∧
    (∀ kv ∈ assocTotals key val xs,
        kv.2 = ((xs.filter (fun x => key x == kv.1)).map val).sum) := by
  induction xs using List.reverseRecOn with
  | nil => simp [assocTotals]
  | append_singleton ts t ih =>
    obtain ⟨hnd, hmem, hsum⟩ := ih
    have hstep : assocTotals key val (ts ++ [t]) =
        upsertAdd (assocTotals key val ts) (key t) (val t) := by
      simp [assocTotals, List.foldl_append]
    rw [hstep]
    by_cases hany : ((assocTotals key val ts).any fun e => e.1 = key t) = true
    · have hres : upsertAdd (assocTotals key val ts) (key t) (val t) =
          (assocTotals key val ts).map (fun e =>
            if e.1 = key t then (e.1, e.2 + val t) else e) := by
        simp only [upsertAdd, if_pos hany]
      have hfst : ((assocTotals key val ts).map (fun e =>
          if e.1 = key t then (e.1, e.2 + val t) else e)).map Prod.fst =
          (assocTotals key val ts).map Prod.fst := by
        rw [List.map_map]
        refine List.map_congr_left ?_
        intro e _
        by_cases he : e.1 = key t <;> simp [he]
      have htmem : key t ∈ (assocTotals key val ts).map Prod.fst := by
        rcases List.any_eq_true.mp hany with ⟨e, he, hpe⟩
        exact List.mem_map.mpr ⟨e, he, of_decide_eq_true hpe⟩
      rw [hres]
      refine ⟨by rw [hfst]; exact hnd, ?_, ?_⟩
      · intro k
        rw [hfst, hmem k]
        simp only [List.map_append, List.mem_append, List.map_cons, List.map_nil,
          List.mem_singleton]
        constructor
        · exact Or.inl
        · rintro (h | h)
          · exact h
          · rw [h]
            exact (hmem _).mp htmem
      · intro kv hkv
        obtain ⟨e, he, hfe⟩ := List.mem_map.mp hkv
        rw [← hfe]
        have hse := hsum e he
        by_cases hek : e.1 = key t
        · rw [if_pos hek]
          rw [keyedSum_append_single, if_pos (by rw [hek])]
          rw [hse]
        · rw [if_neg hek]
          rw [keyedSum_append_single, if_neg (by intro hc; exact hek hc.symm)]
          rw [hse]
          ring
    · have hres : upsertAdd (assocTotals key val ts) (key t) (val t) =
          assocTotals key val ts ++ [(key t, val t)] := by
        simp only [upsertAdd, if_neg hany]
      have hnotmem : key t ∉ (assocTotals key val ts).map Prod.fst := by
        intro hc
        rcases List.mem_map.mp hc with ⟨e, he, hpe⟩
        exact hany (List.any_eq_true.mpr ⟨e, he, decide_eq_true hpe⟩)
      have hnots : key t ∉ ts.map key := fun hc => hnotmem ((hmem _).mpr hc)
      rw [hres]
      refine ⟨?_, ?_, ?_⟩
      · rw [List.map_append]
        refine List.Nodup.append hnd (List.nodup_singleton _) ?_
        intro a ha hb
        rw [List.map_cons, List.map_nil, List.mem_singleton] at hb
        rw [hb] at ha
        exact hnotmem ha
      · intro k
        simp only [List.map_append, List.mem_append, List.map_cons, List.map_nil,
          List.mem_singleton]
        rw [hmem k]
      · intro kv hkv
        rcases List.mem_append.mp hkv with hkv | hkv
        · have hse := hsum kv hkv
          have hek : kv.1 ≠ key t := by
            intro hc
            exact hnotmem (by rw [← hc]; exact List.mem_map_of_mem Prod.fst hkv)
          rw [keyedSum_append_single, if_neg (by intro hc; exact hek hc.symm), hse]
          ring
        · rw [List.mem_singleton] at hkv
          rw [hkv]
          have hz : ∀ x ∈ ts, key x ≠ key t := by
            intro x hx hc
            exact hnots (by rw [← hc]; exact List.mem_map_of_mem key hx)
          rw [keyedSum_append_single, keyedSum_eq_zero key val ts (key t) hz, if_pos rfl]
          ring

/-- C6 (amended): the dashboard's level totals carry exactly one entry per
level occurring among the filtered fixed expenses — a level with no expenses
is absent — and each entry's total is the amount sum at that level. -/
theorem fixedExpenseLevelTotals_occurring (fs : List FixedExpense) :
    ((fixedExpenseLevelTotals fs).map (·.level)).Nodup ∧
    (∀ lvl, lvl ∈ (fixedExpenseLevelTotals fs).map (·.level) ↔
        lvl ∈ fs.map (fun e => jsOr e.level "Må-ha")) ∧
    (∀ en ∈ fixedExpenseLevelTotals fs,
        en.total = ((fs.filter (fun e => jsOr e.level "Må-ha" == en.level)).map
          (·.amountPerMonth)).sum) := by
  obtain ⟨hnd, hmem, hsum⟩ :=
    assocTotals_spec (fun e => jsOr e.level "Må-ha") (fun e => e.amountPerMonth) fs
  have hdef : fixedExpenseLevelTotals fs =
      ((assocTotals (fun e => jsOr e.level "Må-ha") (fun e => e.amountPerMonth) fs).map
        (fun kv => (⟨kv.1, kv.2⟩ : LevelTotal))).insertionSort (fun a b => b.total ≤ a.total) :=
    rfl
  have hperm : (fixedExpenseLevelTotals fs).Perm
      ((assocTotals (fun e => jsOr e.level "Må-ha") (fun e => e.amountPerMonth) fs).map
        (fun kv => (⟨kv.1, kv.2⟩ : LevelTotal))) := by
    rw [hdef]
    exact List.perm_insertionSort _ _
  have hlvl : ∀ l : List (String × Int),
      (l.map (fun kv => (⟨kv.1, kv.2⟩ : LevelTotal))).map (·.level) = l.map Prod.fst := by
    intro l
    rw [List.map_map]
    rfl
  refine ⟨?_, ?_, ?_⟩
  · have := (hperm.map (·.level)).nodup_iff
    rw [this, hlvl]
    exact hnd
  · intro lvl
    rw [(hperm.map (·.level)).mem_iff, hlvl]
    exact hmem lvl
  · intro en hen
    have hen' := hperm.mem_iff.mp hen
    obtain ⟨kv, hkv, hfe⟩ := List.mem_map.mp hen'
    rw [← hfe]
    exact hsum kv hkv

/-- A single Må-ha fixed expense for the C6 witness and counterexample. -/
def c6exp : FixedExpense :=
  ⟨1, "Husleie", 100, "Annet", [], "Må-ha", "", none, none, "", 0, 0, [⟨100, 0⟩]⟩

/-- The one-expense store for the C6 counterexample. -/
def c6state : StoreState where
  categories := []
  pages := []
  transactions := []
  fixedExpenses := [c6exp]
  settings := ⟨0, [], "", [], false, false, "", ""⟩
  counters := ⟨0, 0, 0, 1⟩

/-- Counterexample to C6 as stated: with one Må-ha expense the dashboard's
level totals hold a single entry; the Kjekt å ha and Luksus levels are absent
rather than present with a zero total. -/
theorem fixedExpenseLevelTotals_counterexample :
    (dashboard c6state 0).fixedExpenseLevelTotals = [⟨"Må-ha", 100⟩] ∧
    "Luksus" ∉ ((dashboard c6state 0).fixedExpenseLevelTotals).map (·.level) ∧
    "Kjekt å ha" ∉ ((dashboard c6state 0).fixedExpenseLevelTotals).map (·.level) := by
  decide

/-- Witness for C6 (amended) at the one-expense store. -/
theorem fixedExpenseLevelTotals_occurring_witness :
    (100 : Int) = (([c6exp].filter (fun e => jsOr e.level "Må-ha" == "Må-ha")).map
      (·.amountPerMonth)).sum :=
  (fixedExpenseLevelTotals_occurring [c6exp]).2.2 ⟨"Må-ha", 100⟩ (by decide)

/-! ## Bank mode (C2) -/

theorem upsertSet_fresh (acc : List (String × Int)) (k : String) (v : Int)
    (h : ∀ kv ∈ acc, kv.1 ≠ k) : upsertSet acc k v = acc ++ [(k, v)] := by
  have : (acc.any fun e => e.1 = k) = false := by
    rw [List.any_eq_false]
    intro kv hkv
    simp [h kv hkv]
  simp [upsertSet, this]

theorem contributionStep_none (acc : List (String × Int)) (p : OwnerProfile)
    (hpne : p.name ≠ "") (hsc : p.sharedContribution = none) :
    contributionStep acc p = acc := by
  rw [contributionStep, if_pos hpne, hsc]

theorem contributionStep_some (acc : List (String × Int)) (p : OwnerProfile) (v : Int)
    (hpne : p.name ≠ "") (hsc : p.sharedContribution = some v) :
    contributionStep acc p = upsertSet acc p.name v := by
  rw [contributionStep, if_pos hpne, hsc]

theorem foldl_contribution_fresh (profiles : List OwnerProfile)
    (acc : List (String × Int))
    (hacc : ∀ kv ∈ acc, kv.1 ∉ profiles.map (·.name))
    (hnd : (profiles.map (·.name)).Nodup)
    (hne : ∀ p ∈ profiles, p.name ≠ "") :
    profiles.foldl contributionStep acc =
      acc ++ profiles.filterMap (fun p => p.sharedContribution.map (fun v => (p.name, v))) := by
  induction profiles generalizing acc with
  | nil => simp
  | cons p rest ih =>
    have hpne : p.name ≠ "" := hne p (by simp)
    rw [List.foldl_cons]
    rcases hsc : p.sharedContribution with _ | v
    · rw [contributionStep_none acc p hpne hsc]
      rw [ih acc (fun kv hkv => fun hc => hacc kv hkv (by simp [hc]))
        (by simpa using hnd.of_cons) (fun q hq => hne q (by simp [hq]))]
      simp [hsc]
    · have hfresh : ∀ kv ∈ acc, kv.1 ≠ p.name := by
        intro kv hkv hc
        exact hacc kv hkv (by simp [hc])
      rw [contributionStep_some acc p v hpne hsc, upsertSet_fresh acc p.name v hfresh]
      have hnotin : p.name ∉ rest.map (·.name) := by
        have h2 := hnd
        rw [List.map_cons, List.nodup_cons] at h2
        exact h2.1
      rw [ih (acc ++ [(p.name, v)]) ?hfresh2 (by simpa using hnd.of_cons)
        (fun q hq => hne q (by simp [hq]))]
      · simp [hsc]
      case hfresh2 =>
        intro kv hkv
        rcases List.mem_append.mp hkv with h | h
        · intro hc
          exact hacc kv h (by simp [hc])
        · rw [List.mem_singleton] at h
          rw [h]
          exact hnotin

theorem contributionPairs_eq (profiles : List OwnerProfile)
    (hnd : (profiles.map (·.name)).Nodup)
    (hne : ∀ p ∈ profiles, p.name ≠ "") :
    contributionPairs profiles =
      profiles.filterMap (fun p => p.sharedContribution.map (fun v => (p.name, v))) := by
  have := foldl_contribution_fresh profiles [] (by simp) hnd hne
  simpa [contributionPairs] using this

theorem mapGet_of_nodup_keys (l : List (String × Int)) (k : String) (v : Int)
    (hnd : (l.map Prod.fst).Nodup) (hm : (k, v) ∈ l) : mapGet l k = some v := by
  induction l with
  | nil => simp at hm
  | cons a rest ih =>
    have hnd' : (rest.map Prod.fst).Nodup := (List.nodup_cons.mp hnd).2
    by_cases hak : a.1 = k
    · have hrest : rest.filter (fun e => e.1 = k) = [] := by
        rw [List.filter_eq_nil_iff]
        intro kv hkv hc
        have : a.1 ∈ rest.map Prod.fst := by
          rw [hak, ← of_decide_eq_true hc]
          exact List.mem_map_of_mem Prod.fst hkv
        exact (List.nodup_cons.mp hnd).1 this
      have hav : a = (k, v) := by
        rcases List.mem_cons.mp hm with h | h
        · exact h.symm
        · exfalso
          have : k ∈ rest.map Prod.fst := by
            have := List.mem_map_of_mem Prod.fst h
            simpa using this
          rw [← hak] at this
          exact (List.nodup_cons.mp hnd).1 this
      rw [mapGet, List.filter_cons, if_pos (by simp [hak]), hrest]
      rw [hav]
      rfl
    · have hm' : (k, v) ∈ rest := by
        rcases List.mem_cons.mp hm with h | h
        · exfalso
          exact hak (by rw [← h])
        · exact h
      rw [mapGet, List.filter_cons, if_neg (by simp [hak])]
      exact ih hnd' hm'

theorem mapGet_of_not_mem_keys (l : List (String × Int)) (k : String)
    (h : k ∉ l.map Prod.fst) : mapGet l k = none := by
  have : l.filter (fun e => e.1 = k) = [] := by
    rw [List.filter_eq_nil_iff]
    intro kv hkv hc
    exact h (by rw [← of_decide_eq_true hc]; exact List.mem_map_of_mem Prod.fst hkv)
  simp [mapGet, this]

theorem filterMap_contribution_keys (profiles : List OwnerProfile) :
    (profiles.filterMap (fun p => p.sharedContribution.map (fun v => (p.name, v)))).map
        Prod.fst
      = (profiles.filter (fun p => p.sharedContribution.isSome)).map (·.name) := by
  induction profiles with
  | nil => rfl
  | cons q rest ih =>
    rcases hq : q.sharedContribution with _ | v <;>
      simp [List.filterMap_cons, List.filter_cons, hq, ih]

theorem mapGet_contributionPairs (profiles : List OwnerProfile)
    (hnd : (profiles.map (·.name)).Nodup)
    (hne : ∀ p ∈ profiles, p.name ≠ "") :
    ∀ p ∈ profiles, mapGet (contributionPairs profiles) p.name = p.sharedContribution := by
  intro p hp
  rw [contributionPairs_eq profiles hnd hne]
  have hkeys := filterMap_contribution_keys profiles
  have hndk : ((profiles.filterMap
      (fun p => p.sharedContribution.map (fun v => (p.name, v)))).map Prod.fst).Nodup := by
    rw [hkeys]
    have hsub : (profiles.filter (fun p => p.sharedContribution.isSome)).Sublist profiles :=
      List.filter_sublist profiles
    exact (hsub.map (·.name)).nodup hnd
  rcases hsc : p.sharedContribution with _ | v
  · refine mapGet_of_not_mem_keys _ _ ?_
    rw [hkeys]
    intro hc
    obtain ⟨q, hq, hqn⟩ := List.mem_map.mp hc
    have hqp : q = p := by
      have hinj := List.inj_on_of_nodup_map hnd
      exact hinj (List.mem_of_mem_filter hq) hp hqn
    have := (List.mem_filter.mp hq).2
    rw [hqp, hsc] at this
    simp at this
  · refine mapGet_of_nodup_keys _ _ _ hndk ?_
    refine List.mem_filterMap.mpr ⟨p, hp, ?_⟩
    rw [hsc]
    rfl

theorem sumBy_map {α β : Type} (f : β → Int) (g : α → β) (l : List α) :
    sumBy f (l.map g) = sumBy (fun x => f (g x)) l := by
  rw [sumBy_eq_sum_map, sumBy_eq_sum_map, List.map_map]
  rfl

/-- C2 (amended): bankModeSummary.totalContribution sums sharedContribution
over the participating owners — the active owner filter when non-empty,
otherwise all profiles — so it does depend on the filter; with an empty
filter (and distinct non-blank profile names) it equals the sum over all
profiles. -/
theorem bankMode_totalContribution (st : StoreState) (now : Int) :
    ((dashboard st now).bankModeSummary.totalContribution =
      sumBy (fun o => (mapGet (contributionPairs (getSettingsView st.settings).ownerProfiles)
          o).getD 0)
        (participatingOwnersOf
          ((getSettingsView st.settings).defaultFixedExpensesOwners.filter (fun o => o ≠ ""))
          (getSettingsView st.settings).ownerProfiles)) ∧
    ((getSettingsView st.settings).defaultFixedExpensesOwners.filter (fun o => o ≠ "") = [] →
      ((getSettingsView st.settings).ownerProfiles.map (·.name)).Nodup →
      (∀ p ∈ (getSettingsView st.settings).ownerProfiles, p.name ≠ "") →
      (dashboard st now).bankModeSummary.totalContribution =
        ((getSettingsView st.settings).ownerProfiles.map
          (fun p => p.sharedContribution.getD 0)).sum) := by
  have hdash : (dashboard st now).bankModeSummary.totalContribution =
      sumBy (fun o => (mapGet (contributionPairs (getSettingsView st.settings).ownerProfiles)
          o).getD 0)
        (participatingOwnersOf
          ((getSettingsView st.settings).defaultFixedExpensesOwners.filter (fun o => o ≠ ""))
          (getSettingsView st.settings).ownerProfiles) := by
    simp only [dashboard]
    rw [sumBy_map]
  refine ⟨hdash, ?_⟩
  intro hempty hnd hne
  rw [hdash, hempty]
  have hpart : participatingOwnersOf [] (getSettingsView st.settings).ownerProfiles =
      (getSettingsView st.settings).ownerProfiles.map (·.name) := by
    rw [participatingOwnersOf, if_pos rfl]
    have hfil : (((getSettingsView st.settings).ownerProfiles.map (·.name)).filter
        (fun n => n ≠ "")) = (getSettingsView st.settings).ownerProfiles.map (·.name) := by
      rw [List.filter_eq_self]
      intro n hn
      obtain ⟨p, hp, hpn⟩ := List.mem_map.mp hn
      simp [← hpn, hne p hp]
    rw [hfil]
    exact setDedup_of_nodup _ hnd
  rw [hpart, sumBy_map, sumBy_eq_sum_map]
  refine congrArg List.sum (List.map_congr_left ?_)
  intro p hp
  rw [mapGet_contributionPairs _ hnd hne p hp]

/-- The two-profile owners used for the C2 counterexample. -/
def c2profiles : List OwnerProfile := [⟨"A", some 0, some 10⟩, ⟨"B", some 0, some 20⟩]

/-- The C2 snapshot with no owner filter. -/
def c2stateAll : StoreState where
  categories := []
  pages := []
  transactions := []
  fixedExpenses := []
  settings := ⟨0, c2profiles, "", [], false, false, "", ""⟩
  counters := ⟨0, 0, 0, 0⟩

/-- The C2 snapshot that differs from c2stateAll only in the owner filter. -/
def c2stateFiltered : StoreState where
  categories := []
  pages := []
  transactions := []
  fixedExpenses := []
  settings := ⟨0, c2profiles, "A", ["A"], false, false, "", ""⟩
  counters := ⟨0, 0, 0, 0⟩

/-- Counterexample to C2 as stated: two snapshots differing only in the owner
filter give totalContribution 10 and 30, and the filtered one does not equal
the sum of sharedContribution over all profiles (30). -/
theorem bankMode_totalContribution_counterexample :
    c2stateFiltered = { c2stateAll with settings :=
      { c2stateAll.settings with
        defaultFixedExpensesOwner := "A"
        defaultFixedExpensesOwners := ["A"] } } ∧
    (dashboard c2stateAll 0).bankModeSummary.totalContribution = 30 ∧
    (dashboard c2stateFiltered 0).bankModeSummary.totalContribution = 10 := by
  decide

/-- Witness for C2 (amended) at the unfiltered two-profile snapshot. -/
theorem bankMode_totalContribution_witness :
    (dashboard c2stateAll 0).bankModeSummary.totalContribution =
      ((getSettingsView c2stateAll.settings).ownerProfiles.map
        (fun p => p.sharedContribution.getD 0)).sum :=
  (bankMode_totalContribution c2stateAll 0).2 (by decide) (by decide) (by decide)

/-! ## Owner filter monotonicity (C9) -/

/-- C9 (amended): when every amountPerMonth is non-negative, filtering by a
superset of owners never decreases the effective fixed-expense total.  (The
code accepts negative amounts, for which the claim fails; see the
counterexample.) -/
theorem effectiveFixedExpenseTotal_superset_mono (fs : List FixedExpense)
    (A B : List String) (hB : B ≠ []) (hA : A ≠ []) (hsub : ∀ o ∈ B, o ∈ A)
    (hnonneg : ∀ e ∈ fs, 0 ≤ e.amountPerMonth) :
    effectiveFixedExpenseTotalOf fs B ≤ effectiveFixedExpenseTotalOf fs A := by
  rw [effectiveFixedExpenseTotalOf, effectiveFixedExpenseTotalOf,
    filterFixedByOwners, filterFixedByOwners, if_neg hB, if_neg hA,
    sumBy_eq_sum_map, sumBy_eq_sum_map]
  have hsl : (fs.filter (fun e => e.owners.any (fun o => B.contains o))).Sublist
      (fs.filter (fun e => e.owners.any (fun o => A.contains o))) := by
    refine List.monotone_filter_right fs ?_
    intro e he
    rw [List.any_eq_true] at he ⊢
    obtain ⟨o, ho, hob⟩ := he
    refine ⟨o, ho, ?_⟩
    rw [List.contains_iff_exists_mem_beq] at hob ⊢
    obtain ⟨a, haB, hbeq⟩ := hob
    exact ⟨a, hsub a haB, hbeq⟩
  refine List.Sublist.sum_le_sum (hsl.map (·.amountPerMonth)) ?_
  intro a ha
  obtain ⟨e, he, hea⟩ := List.mem_map.mp ha
  rw [← hea]
  exact hnonneg e (List.mem_of_mem_filter he)

/-- The negative-amount expense for the C9 counterexample. -/
def c9exp : FixedExpense :=
  ⟨1, "Rabatt", -5, "Annet", ["a"], "Må-ha", "", none, none, "", 0, 0, [⟨-5, 0⟩]⟩

/-- Counterexample to C9 as stated: with a negative amountPerMonth (which the
API accepts — only NaN is rejected), the strict superset filter yields a
strictly smaller total. -/
theorem effectiveFixedExpenseTotal_counterexample :
    effectiveFixedExpenseTotalOf [c9exp] ["a", "b"] = -5 ∧
    effectiveFixedExpenseTotalOf [c9exp] ["b"] = 0 ∧
    ¬ effectiveFixedExpenseTotalOf [c9exp] ["b"] ≤
        effectiveFixedExpenseTotalOf [c9exp] ["a", "b"] := by
  decide

/-- Witness for C9 (amended) at a concrete expense list and filters. -/
theorem effectiveFixedExpenseTotal_superset_mono_witness :
    effectiveFixedExpenseTotalOf [c6exp] ["b"] ≤
      effectiveFixedExpenseTotalOf [c6exp] ["a", "b"] :=
  effectiveFixedExpenseTotal_superset_mono [c6exp] ["a", "b"] ["b"]
    (by decide) (by decide) (by decide) (by decide)

/-! ## Category rename cascade (C10) -/

theorem forall₂_map_self {α β : Type} (R : α → β → Prop) (f : α → β) (l : List α)
    (h : ∀ a ∈ l, R a (f a)) : List.Forall₂ R l (l.map f) := by
  induction l with
  | nil => simp
  | cons a rest ih =>
    rw [List.map_cons]
    exact List.Forall₂.cons (h a (by simp)) (ih (fun a ha => h a (by simp [ha])))

theorem updateCategoryGo_snd (id : Int) (p : CategoryUpdatePayload) :
    ∀ (l : List Category) (cats : List Category) (cur : Category × Category),
      updateCategoryGo id p l = (cats, some cur) → cur.2 = mergeCategory cur.1 p := by
  intro l
  induction l with
  | nil => intro cats cur h; simp [updateCategoryGo] at h
  | cons c rest ih =>
    intro cats cur h
    rw [updateCategoryGo] at h
    by_cases hc : (c.id == id) = true
    · rw [if_pos hc] at h
      have h2 := (Prod.mk.injEq _ _ _ _).mp h
      have h3 : some (c, mergeCategory c p) = some cur := h2.2
      have h4 : (c, mergeCategory c p) = cur := Option.some.inj h3
      rw [← h4]
    · rw [if_neg hc] at h
      have h2 := (Prod.mk.injEq _ _ _ _).mp h
      exact ih (updateCategoryGo id p rest).1 cur (by rw [← h2.2])

/-- C10 (amended): a rename via updateCategory (payload name a non-blank
string differing from the current name) rewrites exactly the fixed expenses
whose effective category — "category || 'Annet'", so an empty category
aliases to Annet — equals the old name, setting their category to the
trimmed new name and refreshing updatedAt, and leaves every other fixed
expense (and every other field) unchanged. -/
theorem updateCategory_rename_frame (st : StoreState) (id : Int)
    (p : CategoryUpdatePayload) (now : Int) (cats : List Category)
    (current merged : Category)
    (hgo : updateCategoryGo id p st.categories = (cats, some (current, merged)))
    (n : String) (hn : p.name = some n) (hne : n ≠ "") (hnt : jsTrim n ≠ "")
    (hdiff : n ≠ current.name) :
    List.Forall₂ (fun old new =>
        (jsOr old.category "Annet" = current.name →
          new = { old with category := jsTrim n, updatedAt := now }) ∧
        (jsOr old.category "Annet" ≠ current.name → new = old))
      st.fixedExpenses (updateCategory st id p now).1.fixedExpenses := by
  have hmerged : merged = mergeCategory current p :=
    updateCategoryGo_snd id p st.categories cats (current, merged) hgo
  have hmname : merged.name = jsTrim n := by
    rw [hmerged, mergeCategory, hn]
    rfl
  have hcasc : (match p.name with
      | some n => n ≠ "" && jsTrim n ≠ "" && n != current.name
      | none => false) = true := by
    rw [hn]
    simp [hne, hnt, hdiff]
  have hfe : (updateCategory st id p now).1.fixedExpenses =
      st.fixedExpenses.map (fun e =>
        if jsOr e.category "Annet" == current.name then
          { e with category := merged.name, updatedAt := now }
        else e) := by
    simp only [updateCategory, hgo, hcasc, if_pos]
  rw [hfe]
  refine forall₂_map_self _ _ _ ?_
  intro e _
  by_cases hcat : jsOr e.category "Annet" = current.name
  · constructor
    · intro _
      rw [if_pos (by simp [hcat]), hmname]
    · intro hc
      exact absurd hcat hc
  · constructor
    · intro hc
      exact absurd hc hcat
    · intro _
      rw [if_neg (by simp [hcat])]

/-- The Annet category and an empty-category expense for C10. -/
def c10cat : Category := ⟨1, "Annet", "expense", "#111111", ""⟩

/-- An expense whose category string is empty (reachable through
updateFixedExpense, whose spread copies a payload category verbatim). -/
def c10exp : FixedExpense :=
  ⟨1, "Noe", 10, "", [], "Må-ha", "", none, none, "", 0, 0, [⟨10, 0⟩]⟩

/-- The C10 counterexample store. -/
def c10state : StoreState where
  categories := [c10cat]
  pages := []
  transactions := []
  fixedExpenses := [c10exp]
  settings := ⟨0, [], "", [], false, false, "", ""⟩
  counters := ⟨1, 0, 0, 1⟩

/-- Counterexample to C10 as stated: renaming the category 'Annet' rewrites
an expense whose category string is empty — a string different from the old
name — because the code matches on "category || 'Annet'". -/
theorem updateCategory_rename_counterexample :
    c10exp.category ≠ "Annet" ∧
    (updateCategory c10state 1 ⟨some "X", none, none, none⟩ 99).1.fixedExpenses =
      [{ c10exp with category := "X", updatedAt := 99 }] := by
  decide

/-- The store used to witness C10 (amended). -/
def c10wstate : StoreState where
  categories := [⟨1, "Gammel", "expense", "#111111", ""⟩]
  pages := []
  transactions := []
  fixedExpenses := [⟨1, "Noe", 10, "Gammel", [], "Må-ha", "", none, none, "", 0, 0, [⟨10, 0⟩]⟩]
  settings := ⟨0, [], "", [], false, false, "", ""⟩
  counters := ⟨1, 0, 0, 1⟩

/-- Witness for C10 (amended): the rename frame property at a concrete
store. -/
theorem updateCategory_rename_frame_witness :
    List.Forall₂ (fun old new =>
        (jsOr old.category "Annet" = "Gammel" →
          new = { old with category := jsTrim "Ny", updatedAt := 5 }) ∧
        (jsOr old.category "Annet" ≠ "Gammel" → new = old))
      c10wstate.fixedExpenses
      (updateCategory c10wstate 1 ⟨some "Ny", none, none, none⟩ 5).1.fixedExpenses :=
  updateCategory_rename_frame c10wstate 1 ⟨some "Ny", none, none, none⟩ 5
    [⟨1, "Ny", "expense", "#111111", ""⟩] ⟨1, "Gammel", "expense", "#111111", ""⟩
    ⟨1, "Ny", "expense", "#111111", ""⟩ (by decide) "Ny" rfl (by decide) (by decide) (by decide)

/-! ## Price history invariant (C1) -/

/-- A Chain decision procedure that the kernel can evaluate (the library
instance is built with tactics and gets stuck during kernel reduction). -/
def decChain {α : Type} (r : α → α → Prop) [DecidableRel r] :
    ∀ (a : α) (l : List α), Decidable (List.Chain r a l)
  | _, [] => isTrue List.Chain.nil
  | a, b :: l =>
      haveI := decChain r b l
      decidable_of_iff (r a b ∧ List.Chain r b l) List.chain_cons.symm

instance decChainInst {α : Type} (r : α → α → Prop) [DecidableRel r] (a : α)
    (l : List α) : Decidable (List.Chain r a l) := decChain r a l

instance decChainPrime {α : Type} (r : α → α → Prop) [DecidableRel r] :
    (l : List α) → Decidable (List.Chain' r l)
  | [] => isTrue trivial
  | a :: l => decChain r a l

/-- The price-history invariant of the spec: non-empty, last amount equal to
the current amountPerMonth, no two consecutive equal amounts. -/
def priceInvariant (e : FixedExpense) : Prop :=
  e.priceHistory ≠ [] ∧
  (e.priceHistory.getLast?).map (·.amount) = some e.amountPerMonth ∧
  e.priceHistory.Chain' (fun a b => a.amount ≠ b.amount)

instance (e : FixedExpense) : Decidable (priceInvariant e) :=
  inferInstanceAs (Decidable (e.priceHistory ≠ [] ∧
    (e.priceHistory.getLast?).map (fun en : PriceEntry => en.amount) = some e.amountPerMonth ∧
    e.priceHistory.Chain' (fun a b : PriceEntry => a.amount ≠ b.amount)))

/-- The invariant over every fixed expense of the store. -/
def storePriceInvariant (st : StoreState) : Prop :=
  ∀ e ∈ st.fixedExpenses, priceInvariant e

instance (st : StoreState) : Decidable (storePriceInvariant st) :=
  inferInstanceAs (Decidable (∀ e ∈ st.fixedExpenses, priceInvariant e))

theorem priceInvariant_applyFixedUpdate (e : FixedExpense) (p : UpdateFixedPayload)
    (now : Int) (h : priceInvariant e) : priceInvariant (applyFixedUpdate e p now) := by
  obtain ⟨hne, hlast, hchain⟩ := h
  have hAm : (applyFixedUpdate e p now).amountPerMonth =
      (match p.amountPerMonth with
       | some v => v.toNum?.getD 0
       | none => e.amountPerMonth) := rfl
  have hPH : (applyFixedUpdate e p now).priceHistory =
      (if p.resetPriceHistory then
        [⟨(match p.amountPerMonth with
           | some v => v.toNum?.getD 0
           | none => e.amountPerMonth), now⟩]
      else match e.priceHistory.getLast? with
        | none => [⟨(match p.amountPerMonth with
            | some v => v.toNum?.getD 0
            | none => e.amountPerMonth), now⟩]
        | some latest =>
            if latest.amount ≠ (match p.amountPerMonth with
                | some v => v.toNum?.getD 0
                | none => e.amountPerMonth) then
              e.priceHistory ++ [⟨(match p.amountPerMonth with
                | some v => v.toNum?.getD 0
                | none => e.amountPerMonth), now⟩]
            else e.priceHistory) := rfl
  rw [priceInvariant, hPH, hAm]
  by_cases hr : p.resetPriceHistory
  · rw [if_pos hr]
    exact ⟨by simp, by simp, by simp⟩
  · rw [if_neg hr]
    rcases hl : e.priceHistory.getLast? with _ | latest
    · simp only [hl]
      exact ⟨by simp, by simp, by simp⟩
    · simp only [hl]
      have hla : latest.amount = e.amountPerMonth := by
        rw [hl] at hlast
        simpa using hlast
      by_cases hne2 : latest.amount ≠ (match p.amountPerMonth with
          | some v => v.toNum?.getD 0
          | none => e.amountPerMonth)
      · rw [if_pos hne2]
        refine ⟨by simp, ?_, ?_⟩
        · rw [List.getLast?_concat]
          rfl
        · rw [List.chain'_append]
          refine ⟨hchain, List.chain'_singleton _, ?_⟩
          intro x hx y hy
          rw [hl] at hx
          rw [Option.mem_some_iff] at hx
          simp only [List.head?_cons, Option.mem_some_iff] at hy
          rw [← hx, ← hy]
          exact hne2
      · rw [if_neg hne2]
        refine ⟨hne, ?_, hchain⟩
        rw [hl]
        rw [not_not] at hne2
        rw [← hne2]
        rfl

theorem priceInvariant_applyFixedReset (e : FixedExpense) (now : Int) :
    priceInvariant (applyFixedReset e now) := by
  exact ⟨by simp [applyFixedReset], by simp [applyFixedReset], by simp [applyFixedReset]⟩

theorem updateFixedGo_mem (id : Int) (p : UpdateFixedPayload) (now : Int) :
    ∀ (l : List FixedExpense), ∀ x ∈ (updateFixedGo id p now l).1,
      x ∈ l ∨ ∃ e ∈ l, x = applyFixedUpdate e p now := by
  intro l
  induction l with
  | nil => simp [updateFixedGo]
  | cons e rest ih =>
    intro x hx
    by_cases hc : (e.id == id) = true
    · rw [updateFixedGo, if_pos hc] at hx
      rcases List.mem_cons.mp hx with h | h
      · exact Or.inr ⟨e, by simp, h⟩
      · exact Or.inl (List.mem_cons_of_mem _ h)
    · rw [updateFixedGo, if_neg hc] at hx
      rcases List.mem_cons.mp hx with h | h
      · rw [h]
        exact Or.inl (by simp)
      · rcases ih x h with h2 | ⟨e2, he2, hx2⟩
        · exact Or.inl (List.mem_cons_of_mem _ h2)
        · exact Or.inr ⟨e2, List.mem_cons_of_mem _ he2, hx2⟩

theorem resetFixedGo_mem (id now : Int) :
    ∀ (l : List FixedExpense), ∀ x ∈ (resetFixedGo id now l).1,
      x ∈ l ∨ ∃ e ∈ l, x = applyFixedReset e now := by
  intro l
  induction l with
  | nil => simp [resetFixedGo]
  | cons e rest ih =>
    intro x hx
    by_cases hc : (e.id == id) = true
    · rw [resetFixedGo, if_pos hc] at hx
      rcases List.mem_cons.mp hx with h | h
      · exact Or.inr ⟨e, by simp, h⟩
      · exact Or.inl (List.mem_cons_of_mem _ h)
    · rw [resetFixedGo, if_neg hc] at hx
      rcases List.mem_cons.mp hx with h | h
      · rw [h]
        exact Or.inl (by simp)
      · rcases ih x h with h2 | ⟨e2, he2, hx2⟩
        · exact Or.inl (List.mem_cons_of_mem _ h2)
        · exact Or.inr ⟨e2, List.mem_cons_of_mem _ he2, hx2⟩

/-- C1 (amended): the price-history invariant holds after every mutating
operation, provided addFixedExpense is not handed a non-empty priceHistory in
its payload (the HTTP route never passes one; the raw store function trusts
it, see the counterexample): creation seeds a one-entry history, and any
update or reset preserves the invariant. -/
theorem fixedExpense_priceHistory_invariant :
    (∀ (st : StoreState) (p : AddFixedPayload) (now : Int),
      storePriceInvariant st → (p.priceHistory = none ∨ p.priceHistory = some []) →
      storePriceInvariant (addFixedExpense st p now).1) ∧
    (∀ (st : StoreState) (id : Int) (p : UpdateFixedPayload) (now : Int),
      storePriceInvariant st → storePriceInvariant (updateFixedExpense st id p now).1) ∧
    (∀ (st : StoreState) (id now : Int),
      storePriceInvariant st → storePriceInvariant (resetFixedExpensePriceHistory st id now).1) := by
  refine ⟨?_, ?_, ?_⟩
  · intro st p now hinv hp
    intro e he
    have he2 : e ∈ st.fixedExpenses ++ [(addFixedExpense st p now).2] := he
    rcases List.mem_append.mp he2 with h | h
    · exact hinv e h
    · rw [List.mem_singleton] at h
      rw [h]
      have hph : (addFixedExpense st p now).2.priceHistory =
          [⟨p.amountPerMonth.toNum?.getD 0, now⟩] := by
        rcases hp with hp | hp <;> simp [addFixedExpense, hp]
      have ham : (addFixedExpense st p now).2.amountPerMonth =
          p.amountPerMonth.toNum?.getD 0 := rfl
      exact ⟨by rw [hph]; simp, by rw [hph, ham]; simp, by rw [hph]; simp⟩
  · intro st id p now hinv
    rcases hr2 : (updateFixedGo id p now st.fixedExpenses).2 with _ | e2
    · have : (updateFixedExpense st id p now).1 = st := by
        simp only [updateFixedExpense, hr2]
      rw [this]
      exact hinv
    · have hst : (updateFixedExpense st id p now).1.fixedExpenses =
          (updateFixedGo id p now st.fixedExpenses).1 := by
        simp only [updateFixedExpense, hr2]
    
      intro e he
      rw [hst] at he
      rcases updateFixedGo_mem id p now st.fixedExpenses e he with h | ⟨e0, he0, hx⟩
      · exact hinv e h
      · rw [hx]
        exact priceInvariant_applyFixedUpdate e0 p now (hinv e0 he0)
  · intro st id now hinv
    rcases hr2 : (resetFixedGo id now st.fixedExpenses).2 with _ | e2
    · have : (resetFixedExpensePriceHistory st id now).1 = st := by
        simp only [resetFixedExpensePriceHistory, hr2]
      rw [this]
      exact hinv
    · have hst : (resetFixedExpensePriceHistory st id now).1.fixedExpenses =
          (resetFixedGo id now st.fixedExpenses).1 := by
        simp only [resetFixedExpensePriceHistory, hr2]
      intro e he
      rw [hst] at he
      rcases resetFixedGo_mem id now st.fixedExpenses e he with h | ⟨e0, _, hx⟩
      · exact hinv e h
      · rw [hx]
        exact priceInvariant_applyFixedReset e0 now

/-- An empty store for the C1 counterexample and witness. -/
def c1state : StoreState where
  categories := []
  pages := []
  transactions := []
  fixedExpenses := []
  settings := ⟨0, [], "", [], false, false, "", ""⟩
  counters := ⟨0, 0, 0, 0⟩

/-- An addFixedExpense payload carrying a foreign price history whose last
amount disagrees with amountPerMonth. -/
def c1payload : AddFixedPayload :=
  ⟨none, "Abo", .num 100, "", none, "", "", none, none, "", none, none, some [⟨50, 0⟩]⟩

/-- Counterexample to C1 as stated: addFixedExpense stores a non-empty
payload priceHistory verbatim, so the created expense is in the store with a
last history amount (50) different from its amountPerMonth (100). -/
theorem addFixedExpense_trustedHistory_counterexample :
    (addFixedExpense c1state c1payload 5).2 ∈
        (addFixedExpense c1state c1payload 5).1.fixedExpenses ∧
    ¬ priceInvariant (addFixedExpense c1state c1payload 5).2 := by
  decide

/-- A clean creation payload for the C1 witness. -/
def c1goodPayload : AddFixedPayload :=
  ⟨some 1, "Abo", .num 100, "Annet", none, "Må-ha", "", none, none, "", none, none, none⟩

/-- An amount update payload for the C1 witness. -/
def c1updPayload : UpdateFixedPayload :=
  ⟨none, some (.num 150), none, none, none, none, none, none, none, false⟩

/-- Witness for C1 (amended): create, update and reset on a concrete store,
each application of the theorem with its hypotheses discharged by
evaluation. -/
theorem fixedExpense_priceHistory_invariant_witness :
    storePriceInvariant (addFixedExpense c1state c1goodPayload 5).1 ∧
    storePriceInvariant
      (updateFixedExpense (addFixedExpense c1state c1goodPayload 5).1 1 c1updPayload 6).1 ∧
    storePriceInvariant
      (resetFixedExpensePriceHistory
        (updateFixedExpense (addFixedExpense c1state c1goodPayload 5).1 1 c1updPayload 6).1
        1 7).1 := by
  refine ⟨?_, ?_, ?_⟩
  · exact fixedExpense_priceHistory_invariant.1 c1state c1goodPayload 5 (by decide) (Or.inl rfl)
  · exact fixedExpense_priceHistory_invariant.2.1 _ 1 c1updPayload 6 (by decide)
  · exact fixedExpense_priceHistory_invariant.2.2 _ 1 7 (by decide)

/-! ## Import normalization of price histories (C8) -/

/-- C8: normalization of an externally supplied fixed expense drops history
entries lacking a parseable amount or a timestamp, sorts the remainder
chronologically (kept is a sorted permutation of the parseable entries), and
appends a synthetic trailing entry at updatedAt/createdAt/now exactly when
the result is empty or its last amount differs from the declared
amountPerMonth — so the last entry's amount always equals amountPerMonth. -/
theorem normalizeFixedExpense_priceHistory_spec (raw : RawFixedExpense)
    (fallbackId now : Int) (a : Int) (hdecl : raw.amountPerMonth = .num a) :
    ∃ kept : List PriceEntry,
      kept.Perm ((raw.priceHistory.getD []).filterMap parseRawEntry) ∧
      kept.Sorted (fun x y => x.changedAt ≤ y.changedAt) ∧
      (normalizeFixedExpense raw fallbackId now).amountPerMonth = a ∧
      ((kept ≠ [] ∧ (kept.getLast?).map (·.amount) = some a ∧
          (normalizeFixedExpense raw fallbackId now).priceHistory = kept) ∨
        ((kept = [] ∨ (kept.getLast?).map (·.amount) ≠ some a) ∧
          (normalizeFixedExpense raw fallbackId now).priceHistory =
            kept ++ [⟨a, (raw.updatedAt <|> raw.createdAt).getD now⟩])) ∧
      ((normalizeFixedExpense raw fallbackId now).priceHistory.getLast?).map (·.amount) =
        some a := by
  have hamt : (jsCoalesce raw.amountPerMonth
      (jsCoalesce raw.«beløp_per_mnd» (jsCoalesce raw.amount_per_mnd raw.amount))).toNum?.getD 0
      = a := by
    rw [hdecl]
    rfl
  letI : IsTotal PriceEntry (fun x y => x.changedAt ≤ y.changedAt) :=
    ⟨fun x y => le_total _ _⟩
  letI : IsTrans PriceEntry (fun x y => x.changedAt ≤ y.changedAt) :=
    ⟨fun x y z hxy hyz => le_trans hxy hyz⟩
  rcases hph : raw.priceHistory with _ | entries
  · refine ⟨[], by simp [hph], by simp, ?_, ?_, ?_⟩
    · simp only [normalizeFixedExpense, hph]
      exact hamt
    · refine Or.inr ⟨Or.inl rfl, ?_⟩
      simp only [normalizeFixedExpense, hph, List.getLast?_nil, List.nil_append, hamt]
    · simp only [normalizeFixedExpense, hph, List.getLast?_nil, hamt]
      simp
  · set kept := ((entries.filterMap parseRawEntry).insertionSort
      (fun x y : PriceEntry => x.changedAt ≤ y.changedAt)) with hkept
    have hPH0 : (normalizeFixedExpense raw fallbackId now).priceHistory =
        (match kept.getLast? with
          | none => [⟨a, (raw.updatedAt <|> raw.createdAt).getD now⟩]
          | some latest =>
              if latest.amount ≠ a then
                kept ++ [⟨a, (raw.updatedAt <|> raw.createdAt).getD now⟩]
              else kept) := by
      simp only [normalizeFixedExpense, hph, hamt, hkept]
    refine ⟨kept, by simp [hph, hkept]; exact List.perm_insertionSort _ _,
      List.sorted_insertionSort _ _, ?_, ?_, ?_⟩
    · simp only [normalizeFixedExpense, hph]
      exact hamt
    · rcases hl : kept.getLast? with _ | latest
      · refine Or.inr ⟨Or.inl (by simpa using hl), ?_⟩
        rw [hPH0, hl]
        simp [List.getLast?_eq_none_iff.mp hl]
      · by_cases hla : latest.amount ≠ a
        · refine Or.inr ⟨Or.inr (by simpa using hla), ?_⟩
          rw [hPH0, hl]
          simp [hla]
        · rw [not_not] at hla
          refine Or.inl ⟨?_, by simp [hla], ?_⟩
          · intro hc
            rw [hc] at hl
            simp at hl
          · rw [hPH0, hl]
            simp [hla]
    · rcases hl : kept.getLast? with _ | latest
      · rw [hPH0, hl]
        simp
      · by_cases hla : latest.amount ≠ a
        · rw [hPH0, hl]
          simp only [if_pos hla, List.getLast?_concat]
          rfl
        · rw [not_not] at hla
          rw [hPH0, hl]
          simp only [ne_eq, hla, not_true_eq_false, if_false, ite_false]
          simp [hla]
          exact ⟨latest, hl, hla⟩

/-- A raw import record for the C8 witness: a declared amount of 100, one
unparseable history entry and two parseable ones arriving out of order. -/
def c8raw : RawFixedExpense where
  id := some 1
  name := "Abo"
  navn := ""
  amountPerMonth := .num 100
  «beløp_per_mnd» := .missing
  amount_per_mnd := .missing
  amount := .missing
  category := "Annet"
  kategori := ""
  owners := .arr []
  eier := .missing
  eiere := .missing
  level := "Må-ha"
  «nivå» := ""
  startDate := ""
  startdato := ""
  bindingEndDate := none
  «binding_utløper» := none
  sluttdato := none
  noticePeriodMonths := .missing
  «oppsigelsestid_mnd» := .missing
  note := ""
  notat := ""
  createdAt := some 10
  updatedAt := some 20
  priceHistory := some [⟨.num 70, .missing, .missing, .missing, some 5, none, none⟩,
    ⟨.nan, .missing, .missing, .missing, some 3, none, none⟩,
    ⟨.num 50, .missing, .missing, .missing, some 2, none, none⟩]

/-- Witness for C8: after normalizing the concrete record the last history
amount equals the declared amountPerMonth. -/
theorem normalizeFixedExpense_priceHistory_spec_witness :
    ((normalizeFixedExpense c8raw 1 99).priceHistory.getLast?).map (·.amount) =
      some 100 := by
  obtain ⟨kept, hperm, hsort, ham, hcase, hlast⟩ :=
    normalizeFixedExpense_priceHistory_spec c8raw 1 99 100 rfl
  exact hlast

/-! ## Export / import round trip (C7) -/

/-- A kernel-evaluable Pairwise decision procedure (the library instance is
built with tactics). -/
def decPairwise {α : Type} (r : α → α → Prop) [DecidableRel r] :
    ∀ l : List α, Decidable (l.Pairwise r)
  | [] => isTrue List.Pairwise.nil
  | a :: l =>
      haveI := decPairwise r l
      decidable_of_iff ((∀ b ∈ l, r a b) ∧ l.Pairwise r) List.pairwise_cons.symm

instance decPairwiseInst {α : Type} (r : α → α → Prop) [DecidableRel r] (l : List α) :
    Decidable (l.Pairwise r) := decPairwise r l

/-- A fixed expense in the canonical shape the store itself produces:
non-blank name/category/level, trimmed non-blank owners, and a non-empty
chronologically sorted price history whose last amount is the current
amountPerMonth. -/
def CanonicalFixed (e : FixedExpense) : Prop :=
  e.name ≠ "" ∧ e.category ≠ "" ∧ e.level ≠ "" ∧
  (∀ o ∈ e.owners, jsTrim o = o ∧ o ≠ "") ∧
  e.priceHistory ≠ [] ∧
  e.priceHistory.Pairwise (fun x y => x.changedAt ≤ y.changedAt) ∧
  (e.priceHistory.getLast?).map (·.amount) = some e.amountPerMonth

instance (e : FixedExpense) : Decidable (CanonicalFixed e) :=
  inferInstanceAs (Decidable (_ ∧ _ ∧ _ ∧ _ ∧ _ ∧ _ ∧ _))

/-- An owner profile in the canonical shape produced by
normalizeOwnerProfiles. -/
def CanonicalProfile (p : OwnerProfile) : Prop :=
  jsTrim p.name = p.name ∧ p.name ≠ "" ∧
  (∃ v : Int, p.monthlyNetIncome = some v ∧ 0 ≤ v) ∧
  p.sharedContribution = none

instance (p : OwnerProfile) : Decidable (CanonicalProfile p) :=
  inferInstanceAs (Decidable (_ ∧ _ ∧ (∃ v : Int, p.monthlyNetIncome = some v ∧ 0 ≤ v) ∧ _))

/-- Settings in the canonical shape produced by the store's own
normalization paths. -/
def CanonicalSettings (s : Settings) : Prop :=
  (∀ p ∈ s.ownerProfiles, CanonicalProfile p) ∧
  (s.ownerProfiles.map (·.name)).Nodup ∧
  (∀ o ∈ s.defaultFixedExpensesOwners, jsTrim o = o ∧ o ≠ "") ∧
  s.defaultFixedExpensesOwners.Nodup ∧
  s.defaultFixedExpensesOwner = s.defaultFixedExpensesOwners.headD "" ∧
  s.bankModeEnabled = false ∧
  (s.lockEnabled = false → s.lockSalt = "" ∧ s.lockHash = "")

instance (s : Settings) : Decidable (CanonicalSettings s) :=
  inferInstanceAs (Decidable (_ ∧ _ ∧ _ ∧ _ ∧ _ ∧ _ ∧ _))

/-- A store state in the canonical shape the running server maintains. -/
def CanonicalState (st : StoreState) : Prop :=
  st.categories ≠ [] ∧
  (∀ c ∈ st.categories, c.type ≠ "" ∧ c.color ≠ "") ∧
  (∀ pg ∈ st.pages, pg.color ≠ "") ∧
  (∀ tx ∈ st.transactions, tx.type ≠ "" ∧ tx.occurredOn ≠ "") ∧
  (∀ e ∈ st.fixedExpenses, CanonicalFixed e) ∧
  CanonicalSettings st.settings ∧
  0 ≤ st.counters.fixedExpenses ∧
  (∀ e ∈ st.fixedExpenses, e.id ≤ st.counters.fixedExpenses)

instance (st : StoreState) : Decidable (CanonicalState st) :=
  inferInstanceAs (Decidable (_ ∧ _ ∧ _ ∧ _ ∧ _ ∧ _ ∧ _ ∧ _))

theorem jsOr_empty (x : String) : jsOr x "" = x := by
  unfold jsOr
  split
  · rename_i h
    rw [h]
  · rfl

theorem orElse_none_int (x : Option Int) : (x <|> none) = x := by
  cases x <;> rfl

theorem filterMap_parse_toRaw (l : List PriceEntry) :
    (l.map toRawPriceEntry).filterMap parseRawEntry = l := by
  induction l with
  | nil => rfl
  | cons x rest ih =>
    rw [List.map_cons, List.filterMap_cons]
    have : parseRawEntry (toRawPriceEntry x) = some x := rfl
    rw [this, ih]

set_option maxHeartbeats 1000000 in
theorem normalize_toRawFixed_eq (e : FixedExpense) (h : CanonicalFixed e)
    (fid now : Int) : normalizeFixedExpense (toRawFixed e) fid now = e := by
  obtain ⟨hname, hcat, hlvl, howners, hne, hsorted, hlast⟩ := h
  obtain ⟨latest, hlat, hlam⟩ : ∃ latest, e.priceHistory.getLast? = some latest ∧
      latest.amount = e.amountPerMonth := by
    rcases hl : e.priceHistory.getLast? with _ | latest
    · rw [hl] at hlast
      simp at hlast
    · rw [hl] at hlast
      refine ⟨latest, rfl, ?_⟩
      simpa using hlast
  have hparse : ((e.priceHistory.map toRawPriceEntry).filterMap parseRawEntry).insertionSort
      (fun x y : PriceEntry => x.changedAt ≤ y.changedAt) = e.priceHistory := by
    rw [filterMap_parse_toRaw]
    exact List.Sorted.insertionSort_eq hsorted
  have hown : toOwners (ownersOr (.arr e.owners) (ownersOr .missing .missing)) = e.owners := by
    show (e.owners.filter (fun o => jsTrim o ≠ "")).map jsTrim = e.owners
    have hfil : e.owners.filter (fun o => jsTrim o ≠ "") = e.owners := by
      rw [List.filter_eq_self]
      intro o ho
      obtain ⟨h1, h2⟩ := howners o ho
      rw [h1]
      simpa using h2
    rw [hfil]
    have : ∀ o ∈ e.owners, jsTrim o = o := fun o ho => (howners o ho).1
    rw [List.map_congr_left this]
    simp
  have hPH : (normalizeFixedExpense (toRawFixed e) fid now).priceHistory = e.priceHistory := by
    simp only [normalizeFixedExpense, toRawFixed, hparse, hlat]
    rw [if_neg (by rw [not_not]; exact hlam.trans rfl)]
  have hAm : (normalizeFixedExpense (toRawFixed e) fid now).amountPerMonth =
      e.amountPerMonth := rfl
  cases e with
  | mk id name amountPerMonth category owners level startDate bindingEndDate
      noticePeriodMonths note createdAt updatedAt priceHistory =>
    simp only [normalizeFixedExpense, toRawFixed] at hPH ⊢
    refine FixedExpense.mk.injEq .. ▸ ?_
    refine ⟨rfl, ?_, rfl, ?_, ?_, ?_, ?_, ?_, ?_, ?_, rfl, rfl, ?_⟩
    · show jsOr name (jsOr "" "Uten navn") = name
      simp only [jsOr, if_pos rfl]
      rw [if_neg hname]
    · show jsOr category (jsOr "" "Annet") = category
      simp only [jsOr, if_pos rfl]
      rw [if_neg hcat]
    · exact hown
    · show jsOr level (jsOr "" "Må-ha") = level
      simp only [jsOr, if_pos rfl]
      rw [if_neg hlvl]
    · show jsOr startDate (jsOr "" "") = startDate
      simp only [jsOr, if_pos rfl]
      exact jsOr_empty startDate
    · cases bindingEndDate <;> rfl
    · cases noticePeriodMonths <;> rfl
    · show jsOr note (jsOr "" "") = note
      simp only [jsOr, if_pos rfl]
      exact jsOr_empty note
    · exact hPH

theorem foldl_profile_fresh (profiles : List OwnerProfile) (acc : List (String × Int))
    (hacc : ∀ kv ∈ acc, kv.1 ∉ profiles.map (fun p => jsTrim p.name))
    (hnd : (profiles.map (fun p => jsTrim p.name)).Nodup)
    (hne : ∀ p ∈ profiles, jsTrim p.name ≠ "") :
    profiles.foldl profileStep acc =
      acc ++ profiles.map (fun p => (jsTrim p.name, profileIncomeOf p)) := by
  induction profiles generalizing acc with
  | nil => simp
  | cons p rest ih =>
    have hpne : jsTrim p.name ≠ "" := hne p (by simp)
    rw [List.foldl_cons, profileStep, if_neg hpne]
    have hfresh : ∀ kv ∈ acc, kv.1 ≠ jsTrim p.name := by
      intro kv hkv hc
      exact hacc kv hkv (by simp [hc])
    rw [upsertSet_fresh acc (jsTrim p.name) (profileIncomeOf p) hfresh]
    have hnotin : jsTrim p.name ∉ rest.map (fun q => jsTrim q.name) := by
      have h2 := hnd
      rw [List.map_cons, List.nodup_cons] at h2
      exact h2.1
    rw [ih (acc ++ [(jsTrim p.name, profileIncomeOf p)]) ?hf (by simpa using hnd.of_cons)
      (fun q hq => hne q (by simp [hq]))]
    · simp
    case hf =>
      intro kv hkv
      rcases List.mem_append.mp hkv with h | h
      · intro hc
        exact hacc kv h (by simp [hc])
      · rw [List.mem_singleton] at h
        rw [h]
        exact hnotin

theorem normalizeOwnerProfiles_id (profiles : List OwnerProfile)
    (hc : ∀ p ∈ profiles, CanonicalProfile p)
    (hnd : (profiles.map (·.name)).Nodup) :
    normalizeOwnerProfiles profiles = profiles := by
  have htrim : ∀ p ∈ profiles, jsTrim p.name = p.name := fun p hp => (hc p hp).1
  have hmapeq : profiles.map (fun p => jsTrim p.name) = profiles.map (·.name) :=
    List.map_congr_left htrim
  rw [normalizeOwnerProfiles,
    foldl_profile_fresh profiles [] (by simp) (by rw [hmapeq]; exact hnd)
      (fun p hp => by rw [htrim p hp]; exact (hc p hp).2.1)]
  rw [List.nil_append, List.map_map]
  refine (List.map_congr_left ?_).trans (List.map_id profiles)
  intro p hp
  obtain ⟨h1, _, ⟨v, hv, hv0⟩, h4⟩ := hc p hp
  show (⟨jsTrim p.name, some (profileIncomeOf p), none⟩ : OwnerProfile) = p
  rw [h1]
  have hinc : profileIncomeOf p = v := by
    rw [profileIncomeOf, hv]
    simp [hv0]
  rw [hinc, ← hv, ← h4]

theorem normalizeDefaultOwnerList_id (l : List String)
    (h : ∀ o ∈ l, jsTrim o = o ∧ o ≠ "") (hnd : l.Nodup) :
    normalizeDefaultOwnerList l = l := by
  rw [normalizeDefaultOwnerList]
  have hmap : l.map (jsTrim ·) = l := by
    refine (List.map_congr_left ?_).trans (List.map_id l)
    exact fun o ho => (h o ho).1
  rw [hmap]
  have hfil : l.filter (fun s => s ≠ "") = l := by
    rw [List.filter_eq_self]
    intro o ho
    simpa using (h o ho).2
  rw [hfil]
  exact setDedup_of_nodup l hnd

theorem foldl_max_le (l : List Int) (c : Int) :
    ∀ init : Int, init ≤ c → (∀ x ∈ l, x ≤ c) → l.foldl max init ≤ c := by
  induction l with
  | nil => intro init hi _; exact hi
  | cons a rest ih =>
    intro init hi h
    rw [List.foldl_cons]
    exact ih (max init a) (max_le hi (h a (by simp))) (fun x hx => h x (by simp [hx]))

theorem categories_map_id (cats : List Category)
    (h : ∀ c ∈ cats, c.type ≠ "" ∧ c.color ≠ "") :
    cats.map (fun c => (⟨c.id, c.name, jsOr c.type "expense", jsOr c.color "#4f46e5",
      jsOr c.description ""⟩ : Category)) = cats := by
  refine (List.map_congr_left ?_).trans (List.map_id _)
  intro c hc
  obtain ⟨ht, hcol⟩ := h c hc
  have h1 : jsOr c.type "expense" = c.type := by rw [jsOr, if_neg ht]
  have h2 : jsOr c.color "#4f46e5" = c.color := by rw [jsOr, if_neg hcol]
  rw [h1, h2, jsOr_empty]
  rfl

theorem pages_map_id (pages : List Page) (h : ∀ p ∈ pages, p.color ≠ "") :
    pages.map (fun p => (⟨p.id, p.name, jsOr p.description "", jsOr p.color "#059669"⟩ :
      Page)) = pages := by
  refine (List.map_congr_left ?_).trans (List.map_id _)
  intro p hp
  have h1 : jsOr p.color "#059669" = p.color := by rw [jsOr, if_neg (h p hp)]
  rw [h1, jsOr_empty]
  rfl

theorem transactions_map_id (txs : List Transaction) (nowDate : String)
    (h : ∀ tx ∈ txs, tx.type ≠ "" ∧ tx.occurredOn ≠ "") :
    txs.map (fun tx => (⟨tx.id, tx.title, tx.amount, jsOr tx.type "expense", tx.categoryId,
      tx.pageId, tx.tags, jsOr tx.occurredOn nowDate, jsOr tx.notes ""⟩ : Transaction)) =
      txs := by
  refine (List.map_congr_left ?_).trans (List.map_id _)
  intro tx htx
  obtain ⟨ht, ho⟩ := h tx htx
  have h1 : jsOr tx.type "expense" = tx.type := by rw [jsOr, if_neg ht]
  have h2 : jsOr tx.occurredOn nowDate = tx.occurredOn := by rw [jsOr, if_neg ho]
  rw [h1, h2, jsOr_empty]
  rfl

theorem fixedExpenses_map_id (fes : List FixedExpense) (now : Int)
    (h : ∀ e ∈ fes, CanonicalFixed e) :
    fes.map (fun e => normalizeFixedExpense (toRawFixed e) e.id now) = fes := by
  refine (List.map_congr_left ?_).trans (List.map_id _)
  intro e he
  exact normalize_toRawFixed_eq e (h e he) e.id now

theorem replaceAll_id (st : StoreState) (h : CanonicalState st) (now : Int)
    (nowDate : String) : replaceAll st now nowDate = st := by
  obtain ⟨hcne, hcats, hpages, htxs, hfes, hsettings, _, _⟩ := h
  obtain ⟨hprof, hprofnd, hdefaults, hdefnd, howner, hbank, hlock⟩ := hsettings
  simp only [replaceAll]
  rw [categories_map_id st.categories hcats, pages_map_id st.pages hpages,
    transactions_map_id st.transactions nowDate htxs,
    fixedExpenses_map_id st.fixedExpenses now hfes,
    normalizeOwnerProfiles_id st.settings.ownerProfiles hprof hprofnd,
    normalizeDefaultOwnerList_id st.settings.defaultFixedExpensesOwners hdefaults hdefnd,
    ← howner, ← hbank]

theorem ensureDefaults_id (st : StoreState) (h : CanonicalState st) (now : Int) :
    ensureDefaults st now = st := by
  obtain ⟨hcne, hcats, hpages, htxs, hfes, hsettings, hc0, hcid⟩ := h
  obtain ⟨hprof, hprofnd, hdefaults, hdefnd, howner, hbank, hlock⟩ := hsettings
  have hfe2 : st.fixedExpenses.enum.map
      (fun ie => normalizeFixedExpense (toRawFixed ie.2) ((ie.1 : Int) + 1) now) =
      st.fixedExpenses := by
    have h1 : st.fixedExpenses.enum.map
        (fun ie => normalizeFixedExpense (toRawFixed ie.2) ((ie.1 : Int) + 1) now) =
        st.fixedExpenses.enum.map Prod.snd := by
      refine List.map_congr_left ?_
      intro ie hie
      have hmem : ie.2 ∈ st.fixedExpenses := by
        rw [List.mem_enum_iff_getElem?] at hie
        exact List.getElem?_mem hie
      exact normalize_toRawFixed_eq ie.2 (hfes ie.2 hmem) _ now
    rw [h1, List.enum_map_snd]
  have hltrim : ¬ (jsTrim st.settings.defaultFixedExpensesOwner ≠ "" ∧
      st.settings.defaultFixedExpensesOwners = []) := by
    rintro ⟨h1, h2⟩
    rw [howner, h2] at h1
    exact h1 rfl
  have hsalt : (if st.settings.lockEnabled then st.settings.lockSalt else "") =
      st.settings.lockSalt := by
    cases hl2 : st.settings.lockEnabled
    · rw [if_neg (by simp), (hlock hl2).1]
    · rw [if_pos rfl]
  have hhash : (if st.settings.lockEnabled then st.settings.lockHash else "") =
      st.settings.lockHash := by
    cases hl2 : st.settings.lockEnabled
    · rw [if_neg (by simp), (hlock hl2).2]
    · rw [if_pos rfl]
  have hmax : (max st.counters.fixedExpenses
      ((st.fixedExpenses.map (fun e => e.id)).foldl max 0) : Int) =
      st.counters.fixedExpenses := by
    refine max_eq_left ?_
    refine foldl_max_le _ _ 0 hc0 ?_
    intro x hx
    obtain ⟨e, he, hei⟩ := List.mem_map.mp hx
    rw [← hei]
    exact hcid e he
  simp only [ensureDefaults]
  rw [normalizeDefaultOwnerList_id _ hdefaults hdefnd, if_neg hltrim,
    normalizeOwnerProfiles_id st.settings.ownerProfiles hprof hprofnd,
    ← howner, hsalt, hhash, hfe2, hmax]
  rw [if_neg hcne]

/-- C7 (amended): for a store in the canonical shape the server maintains
(normalized fixed expenses and settings, non-empty categories, counters at or
above the highest id, and bank mode off — the rebuilt settings object of
replaceAll drops the bankModeEnabled key), exporting and re-importing
produces an identical dashboard aggregation for the same "now". -/
theorem importRoundTrip_dashboard (st : StoreState) (inow now : Int) (nowDate : String)
    (h : CanonicalState st) :
    dashboard (importRoundTrip st inow nowDate) now = dashboard st now := by
  rw [importRoundTrip, exportPayload, replaceAll_id st h inow nowDate,
    ensureDefaults_id st h inow]

/-- A store with bank mode enabled for the C7 counterexample. -/
def c7state : StoreState where
  categories := [⟨1, "Lønn", "income", "#22c55e", ""⟩]
  pages := []
  transactions := []
  fixedExpenses := []
  settings := ⟨0, [], "", [], true, false, "", ""⟩
  counters := ⟨1, 0, 0, 0⟩

/-- Counterexample to C7 as stated: replaceAll rebuilds the settings object
without a bankModeEnabled key, so a store with bank mode on round-trips to a
different aggregation (bankModeSummary.enabled flips to false). -/
theorem importRoundTrip_dashboard_counterexample :
    (dashboard c7state 0).bankModeSummary.enabled = true ∧
    (dashboard (importRoundTrip c7state 0 "2024-01-01") 0).bankModeSummary.enabled = false ∧
    dashboard (importRoundTrip c7state 0 "2024-01-01") 0 ≠ dashboard c7state 0 := by
  decide

/-- A canonical store exercising every collection for the C7 witness. -/
def c7wstate : StoreState where
  categories := [⟨1, "Lønn", "income", "#22c55e", ""⟩]
  pages := [⟨1, "Hjem", "", "#059669"⟩]
  transactions := [⟨1, "Lønn", 1000, "income", some 1, some 1, ["lønn"], "2024-01-05", ""⟩]
  fixedExpenses := [⟨1, "Husleie", 100, "Bolig", ["A"], "Må-ha", "", some 86400000, none, "",
    0, 0, [⟨80, 0⟩, ⟨100, 5⟩]⟩]
  settings := ⟨500, [⟨"A", some 300, none⟩], "A", ["A"], false, false, "", ""⟩
  counters := ⟨1, 1, 1, 1⟩

/-- Witness for C7 (amended): the round trip preserves the dashboard at a
concrete canonical store, the canonicity hypothesis discharged by
evaluation. -/
theorem importRoundTrip_dashboard_witness :
    dashboard (importRoundTrip c7wstate 3 "2024-02-01") 7 = dashboard c7wstate 7 :=
  importRoundTrip_dashboard c7wstate 3 7 "2024-02-01" (by decide)
